import Mathlib

/-!
Verification of the VTC usage-report generator (report_generator.py).

The pipeline manipulates pandas DataFrames holding values read from DynamoDB.
We embed a DataFrame as a Frame: a list of column names together with
positional rows; a cell is a Value (an integer, a string, a UTC instant, or
null).  Integers stand for the numeric cells the pipeline actually handles
(DynamoDB Decimals holding epoch timestamps and event counts); instants are
microseconds since the Unix epoch, which keeps both the second and the
microsecond granularity that the date filter distinguishes.  String
operations (strip, lower, endswith, numeric parse) are re-implemented over
character lists so that every definition evaluates by kernel reduction; they
agree with the Python operations on the ASCII data the pipeline processes.
-/

/-- A cell of a DataFrame: numeric (DynamoDB Decimal / int), string, a
timezone-aware UTC instant (microseconds since epoch, the result of
pd.to_datetime), or null (None / NaN / NaT). -/
inductive Value where
  | num (n : Int)
  | str (s : String)
  | inst (t : Int)
  | null
deriving DecidableEq, Repr

/-- A pandas DataFrame: ordered column names plus positional rows. -/
structure Frame where
  cols : List String
  rows : List (List Value)
deriving DecidableEq, Repr

/-- Rectangularity: every row has one cell per column (every real pandas
DataFrame satisfies this). -/
def Frame.WF (f : Frame) : Prop := ∀ r ∈ f.rows, r.length = f.cols.length

instance decidableFrameWF (f : Frame) : Decidable f.WF :=
  inferInstanceAs (Decidable (∀ r ∈ f.rows, r.length = f.cols.length))

/-- Index of the first column with the given name, like df.columns lookup. -/
def colIdx (cols : List String) (c : String) : Option Nat :=
  match cols with
  | [] => none
  | x :: xs => if x = c then some 0 else (colIdx xs c).map (· + 1)

/-- Read the cell of row r in column c (null when the column is absent). -/
def cellAt (cols : List String) (r : List Value) (c : String) : Value :=
  match colIdx cols c with
  | some i => r.getD i Value.null
  | none => Value.null

/-- df[c] = vals: overwrite an existing column in place or append a new one. -/
def Frame.setCol (f : Frame) (c : String) (vals : List Value) : Frame :=
  match colIdx f.cols c with
  | some i => ⟨f.cols, (f.rows.zip vals).map (fun p => p.1.set i p.2)⟩
  | none => ⟨f.cols ++ [c], (f.rows.zip vals).map (fun p => p.1 ++ [p.2])⟩

/-- The list of values of column c, one per row. -/
def Frame.colVals (f : Frame) (c : String) : List Value :=
  f.rows.map (fun r => cellAt f.cols r c)

/-- df.rename(columns) for a single column: every column named old becomes nw. -/
def Frame.renameCol (f : Frame) (old nw : String) : Frame :=
  ⟨f.cols.map (fun c => if c = old then nw else c), f.rows⟩

/- ---------- string helpers (ASCII re-implementations of the Python ops) ---------- -/

/-- ASCII lower-casing of one character (str.lower on the ASCII data in play). -/
def lowerChar (c : Char) : Char :=
  if 'A' ≤ c ∧ c ≤ 'Z' then Char.ofNat (c.toNat + 32) else c

/-- str.lower(). -/
def strLower (s : String) : String := ⟨s.data.map lowerChar⟩

/-- Whitespace recognised by str.strip() on the ASCII data in play. -/
def isWs (c : Char) : Bool := c = ' ' || c = '\t' || c = '\n' || c = '\r'

/-- str.strip(). -/
def strTrim (s : String) : String :=
  ⟨((s.data.dropWhile isWs).reverse.dropWhile isWs).reverse⟩

/-- str.endswith(suffix). -/
def strEndsWith (s suffix : String) : Bool :=
  suffix.data.isSuffixOf s.data

/-- Digits of a decimal-integer string, fused into a number. -/
def digitsVal (cs : List Char) : Option Nat :=
  if cs ≠ [] ∧ cs.all Char.isDigit then
    some (cs.foldl (fun a c => a * 10 + (c.toNat - 48)) 0)
  else none

/-- pd.to_numeric on a single string, restricted to the integer literals
(optionally signed, optionally surrounded by whitespace) that the pipeline's
epoch timestamps actually are; anything else fails. -/
def strToInt? (s : String) : Option Int :=
  match (strTrim s).data with
  | '-' :: cs => (digitsVal cs).map (fun n => -(n : Int))
  | cs => (digitsVal cs).map (fun n => (n : Int))

/-- pd.to_numeric(errors='coerce') on one cell: numbers pass through, numeric
strings parse, everything else becomes null (NaN). -/
def Value.toNumeric : Value → Option Int
  | .num n => some n
  | .str s => strToInt? s
  | _ => none

/-- str(x) as pandas astype(str) renders the cells in play: strings unchanged,
numbers in decimal, None as the string None. -/
def Value.toStr : Value → String
  | .num n => toString n
  | .str s => s
  | .inst t => toString t
  | .null => "None"

/-- The account-identity normalisation used throughout:
astype(str).str.strip().str.lower(). -/
def normalizeAccount (v : Value) : String := strLower (strTrim v.toStr)

/- ---------- calendar arithmetic for the string-date parser ---------- -/

/-- Days from 1970-01-01 to year/month/day of the proleptic Gregorian
calendar (Howard Hinnant's days_from_civil). -/
def daysFromCivil (y m d : Int) : Int :=
  let y := if m ≤ 2 then y - 1 else y
  let era := (if 0 ≤ y then y else y - 399) / 400
  let yoe := y - era * 400
  let mp := (m + 9) % 12
  let doy := (153 * mp + 2) / 5 + d - 1
  let doe := yoe * 365 + yoe / 4 - yoe / 100 + doy
  era * 146097 + doe - 719468

/-- Length of a month in the Gregorian calendar. -/
def daysInMonth (y : Nat) (m : Nat) : Nat :=
  if m = 2 then
    if y % 4 = 0 ∧ (y % 100 ≠ 0 ∨ y % 400 = 0) then 29 else 28
  else if m = 4 ∨ m = 6 ∨ m = 9 ∨ m = 11 then 30
  else 31

/-- Microseconds per second and per day. -/
def usPerSec : Int := 1000000

/-- Microseconds per day. -/
def usPerDay : Int := 86400000000

/-- A validated UTC civil date-time as microseconds since the epoch. -/
def mkInstant (y mo d h mi se : Nat) : Option Int :=
  if 1 ≤ mo ∧ mo ≤ 12 ∧ 1 ≤ d ∧ d ≤ daysInMonth y mo ∧ h < 24 ∧ mi < 60 ∧ se < 60 then
    some (daysFromCivil (y : Int) (mo : Int) (d : Int) * usPerDay
          + ((h * 3600 + mi * 60 + se : Nat) : Int) * usPerSec)
  else none

/-- Two decimal digits. -/
def dig2 (a b : Char) : Option Nat :=
  if a.isDigit ∧ b.isDigit then some ((a.toNat - 48) * 10 + (b.toNat - 48)) else none

/-- Four decimal digits. -/
def dig4 (a b c d : Char) : Option Nat :=
  if a.isDigit ∧ b.isDigit ∧ c.isDigit ∧ d.isDigit then
    some ((((a.toNat - 48) * 10 + (b.toNat - 48)) * 10 + (c.toNat - 48)) * 10 + (d.toNat - 48))
  else none

/-- pd.to_datetime(utc=True, errors='coerce') on a single string, restricted to
the ISO-8601 shapes the event logs carry: a bare date, or a date plus
HH:MM:SS separated by a space or a T; anything else fails to parse. -/
def parseUTCString (s : String) : Option Int :=
  match s.data with
  | [y1, y2, y3, y4, '-', m1, m2, '-', d1, d2] =>
    match dig4 y1 y2 y3 y4, dig2 m1 m2, dig2 d1 d2 with
    | some y, some mo, some d => mkInstant y mo d 0 0 0
    | _, _, _ => none
  | [y1, y2, y3, y4, '-', m1, m2, '-', d1, d2, sep, h1, h2, ':', n1, n2, ':', s1, s2] =>
    if sep = ' ' ∨ sep = 'T' then
      match dig4 y1 y2 y3 y4, dig2 m1 m2, dig2 d1 d2, dig2 h1 h2, dig2 n1 n2, dig2 s1 s2 with
      | some y, some mo, some d, some h, some mi, some se => mkInstant y mo d h mi se
      | _, _, _, _, _, _ => none
    else none
  | _ => none

/- ---------- the configuration tables of report_generator.py ---------- -/

/-- METRICS_USAGE_TYPE_MAP, in dict insertion order. -/
def METRICS_USAGE_TYPE_MAP : List (String × List String) :=
  [("Logins", []),
   ("Uploads", []),
   ("Generated Transcripts", ["transcript"]),
   ("Regenerated Transcripts", ["regenerate transcript"]),
   ("Initial Summaries", ["initial summary"]),
   ("Regenerated Summaries", ["regenerate summary"]),
   ("Regenerated Notes", ["regenerate note"])]

/-- ACCOUNT_ALIASES. -/
def ACCOUNT_ALIASES : List String :=
  ["account", "email", "user", "user_id", "userId",
   "user_email", "userEmail", "emailAddress", "user_email_address"]

/-- USERNAME_ALIASES. -/
def USERNAME_ALIASES : List String :=
  ["username", "user_name", "name", "displayName"]

/-- USAGE_TYPE_ALIASES. -/
def USAGE_TYPE_ALIASES : List String :=
  ["usage_type", "usageType", "type", "action", "event", "event_type"]

/-- CREATED_AT_ALIASES. -/
def CREATED_AT_ALIASES : List String :=
  ["createdAt", "created_at", "timestamp", "createdOn", "created_at_ms", "created_at_iso"]

/-- _find_first_column: first candidate present among the columns. -/
def find_first_column (f : Frame) (candidates : List String) : Option String :=
  candidates.find? (fun c => f.cols.contains c)

/- ---------- resolve_date_range ---------- -/

/-- resolve_date_range.  Input date strings are abstracted as day numbers
(days since the epoch, the value pd.to_datetime gives a YYYY-MM-DD string);
the current clock enters only through todayDay, the UTC day of datetime.now.
Returns the inclusive [start, end] pair of instants. -/
def resolve_date_range (startDay? endDay? : Option Int) (todayDay : Int) : Int × Int :=
  let e := match endDay? with
    | some d => d * usPerDay + usPerDay - usPerSec
    | none => todayDay * usPerDay + usPerDay - usPerSec
  let s := match startDay? with
    | some d => d * usPerDay
    | none => Int.fdiv (e - 29 * usPerDay) usPerDay * usPerDay
  (s, e)

/- ---------- coerce_created_at ---------- -/

/-- Largest element of a list of integers (pandas Series.max over the
non-null entries; only ever used on a nonempty list). -/
def intMax : List Int → Int
  | [] => 0
  | x :: xs => xs.foldl max x

/-- Epoch interpretation of a numeric column: multiply by k microseconds per
unit (k = 1000 for unit='ms', k = 1000000 for unit='s'); conversion failures
are already null and stay null (NaT). -/
def epochCol (nums : List (Option Int)) (k : Int) : List Value :=
  nums.map (fun o => match o with
    | some n => Value.inst (n * k)
    | none => Value.null)

/-- String-branch parse of one cell: strings go through pd.to_datetime,
anything else (and any unparseable string) becomes null. -/
def strParseVal : Value → Value
  | .str s =>
    match parseUTCString s with
    | some t => Value.inst t
    | none => Value.null
  | _ => Value.null

/-- coerce_created_at: derive the createdAt_dt column of UTC instants from the
first recognised timestamp column, with the majority-numeric heuristic and the
1e12 seconds/milliseconds threshold of the source. -/
def coerce_created_at (f : Frame) : Frame :=
  if f.rows.isEmpty then f
  else
    match find_first_column f CREATED_AT_ALIASES with
    | none => f
    | some c =>
      let vals := f.rows.map (fun r => cellAt f.cols r c)
      let nums := vals.map Value.toNumeric
      let coerced :=
        if 2 * (nums.filterMap id).length > f.rows.length then
          if intMax (nums.filterMap id) > 1000000000000 then epochCol nums 1000
          else epochCol nums 1000000
        else vals.map strParseVal
      f.setCol "createdAt_dt" coerced

/- ---------- filter_by_date ---------- -/

/-- The body of filter_by_date derives createdAt_dt if it is not yet present. -/
def withInstant (f : Frame) : Frame :=
  if f.cols.contains "createdAt_dt" then f else coerce_created_at f

/-- The date mask (createdAt_dt >= start) AND (createdAt_dt <= end); a null
(NaT) cell compares False on both sides, as in pandas. -/
def Value.inRange (v : Value) (s e : Int) : Bool :=
  match v with
  | .inst t => decide (s ≤ t) && decide (t ≤ e)
  | _ => false

/-- filter_by_date. -/
def filter_by_date (f : Frame) (s e : Int) : Frame :=
  if f.rows.isEmpty then f
  else
    let g := withInstant f
    if ¬ g.cols.contains "createdAt_dt" then ⟨g.cols, []⟩
    else if g.rows.all (fun r => decide (cellAt g.cols r "createdAt_dt" = Value.null)) then
      ⟨g.cols, []⟩
    else ⟨g.cols, g.rows.filter (fun r => (cellAt g.cols r "createdAt_dt").inRange s e)⟩

/- ---------- the per-account aggregators ---------- -/

/-- isin(usage_types) on one cell: only a string equal to a listed type
matches. -/
def Value.isinStr (v : Value) (types : List String) : Bool :=
  match v with
  | .str s => types.contains s
  | _ => false

/-- Code-point comparison of strings (Python string <=, used by the sorted
groupby keys). -/
def charListLe : List Char → List Char → Bool
  | [], _ => true
  | _ :: _, [] => false
  | a :: as, b :: bs =>
    if a.toNat < b.toNat then true
    else if b.toNat < a.toNat then false
    else charListLe as bs

/-- String comparison on the underlying character lists. -/
def strLeB (a b : String) : Bool := charListLe a.data b.data

/-- A stable insertion: x goes in front of the first element not below it, so
earlier elements win ties. -/
def stableInsert (le : α → α → Bool) (x : α) : List α → List α
  | [] => [x]
  | y :: ys => if le x y then x :: y :: ys else y :: stableInsert le x ys

/-- Stable sort (pandas sort_values(kind='stable') / sorted groupby keys). -/
def stableSort (le : α → α → Bool) : List α → List α
  | [] => []
  | x :: xs => stableInsert le x (stableSort le xs)

/-- groupby(account).size().reset_index(name='count'): one (account, count)
row per distinct key, keys in ascending order. -/
def groupCountRows (accts : List String) : List (List Value) :=
  ((stableSort strLeB accts).dedup).map
    (fun k => [Value.str k, Value.num (accts.count k : Int)])

/-- count_usage_by_account. -/
def count_usage_by_account (usage : Frame) (usage_types : List String) : Frame :=
  if usage.rows.isEmpty || usage_types.isEmpty then ⟨["account", "count"], []⟩
  else
    match find_first_column usage ACCOUNT_ALIASES, find_first_column usage USAGE_TYPE_ALIASES with
    | some ac, some tc =>
      let subset := usage.rows.filter (fun r => (cellAt usage.cols r tc).isinStr usage_types)
      let accts := subset.map (fun r => normalizeAccount (cellAt usage.cols r ac))
      ⟨["account", "count"], groupCountRows accts⟩
    | _, _ => ⟨["account", "count"], []⟩

/-- count_askai_by_account. -/
def count_askai_by_account (askai : Frame) : Frame :=
  if askai.rows.isEmpty then ⟨["account", "count"], []⟩
  else
    match find_first_column askai ACCOUNT_ALIASES with
    | some ac =>
      ⟨["account", "count"],
       groupCountRows (askai.rows.map (fun r => normalizeAccount (cellAt askai.cols r ac)))⟩
    | none => ⟨["account", "count"], []⟩

/- ---------- build_report_dataframe ---------- -/

/-- The report's final column list. -/
def REPORT_COLUMNS : List String :=
  ["Account", "Username", "Logins", "Uploads", "Generated Transcripts",
   "Regenerated Transcripts", "Initial Summaries", "Regenerated Summaries",
   "Regenerated Notes", "AskAI Questions"]

/-- columns_to_fill of build_report_dataframe. -/
def COLUMNS_TO_FILL : List String :=
  ["Logins", "Uploads", "Generated Transcripts", "Regenerated Transcripts",
   "Initial Summaries", "Regenerated Summaries", "Regenerated Notes", "AskAI Questions"]

/-- The alias-renaming step of build_report_dataframe: the resolved account
and username aliases are renamed to account and username. -/
def rosterRenamed (accounts : Frame) : Frame :=
  let base := match find_first_column accounts ACCOUNT_ALIASES with
    | some c => if c ≠ "account" then accounts.renameCol c "account" else accounts
    | none => accounts
  match find_first_column accounts USERNAME_ALIASES with
  | some c => if c ≠ "username" then base.renameCol c "username" else base
  | none => base

/-- The defaulting step: missing account/username columns become all-null. -/
def rosterDefaulted (g : Frame) : Frame :=
  let base := if g.cols.contains "account" then g
    else g.setCol "account" (g.rows.map (fun _ => Value.null))
  if base.cols.contains "username" then base
  else base.setCol "username" (base.rows.map (fun _ => Value.null))

/-- The normalisation step: account := astype(str).str.strip().str.lower(). -/
def rosterNormalized (g : Frame) : Frame :=
  g.setCol "account"
    (g.rows.map (fun r => Value.str (normalizeAccount (cellAt g.cols r "account"))))

/-- The exclusion predicate of the roster filter: keep rows whose account
does not end with the internal domain suffix. -/
def keepAccount (cols : List String) (r : List Value) : Bool :=
  !(match cellAt cols r "account" with
    | Value.str s => strEndsWith s "@thinkcol.com"
    | _ => false)

/-- The roster after alias renaming, defaulting of missing account/username
columns to null, account normalisation, and the @thinkcol.com exclusion
filter (the base frame of build_report_dataframe). -/
def rosterBase (accounts : Frame) : Frame :=
  let base := rosterNormalized (rosterDefaulted (rosterRenamed accounts))
  ⟨base.cols, base.rows.filter (keepAccount base.cols)⟩

/-- base[["account", "username"]].rename(...): the two-column seed of the
report. -/
def reportInit (accounts : Frame) : Frame :=
  let base := rosterBase accounts
  ⟨["Account", "Username"],
   base.rows.map (fun r => [cellAt base.cols r "account", cellAt base.cols r "username"])⟩

/-- pd.merge(left, right, on=key, how='left'). -/
def mergeLeftOn (left right : Frame) (key : String) : Frame :=
  let payloadIdx := (right.cols.enum.filter (fun p => decide (p.2 ≠ key))).map (fun p => p.1)
  ⟨left.cols ++ right.cols.filter (fun c => decide (c ≠ key)),
   left.rows.flatMap (fun lr =>
     let k := cellAt left.cols lr key
     let ms := right.rows.filter (fun rr => decide (cellAt right.cols rr key = k))
     if ms.isEmpty then [lr ++ payloadIdx.map (fun _ => Value.null)]
     else ms.map (fun rr => lr ++ payloadIdx.map (fun i => rr.getD i Value.null)))⟩

/-- One iteration of the metric loop: count, rename, left-merge. -/
def addMetric (usage : Frame) (rep : Frame) (m : String × List String) : Frame :=
  mergeLeftOn rep
    (((count_usage_by_account usage m.2).renameCol "account" "Account").renameCol "count" m.1)
    "Account"

/-- fillna(0).astype(int) on one numeric-or-null cell. -/
def Value.fillnaInt : Value → Int
  | .num n => n
  | _ => 0

/-- One iteration of the fill loop: create the column as 0 if absent, then
fillna(0).astype(int). -/
def fillColumn (rep : Frame) (c : String) : Frame :=
  let rep := if rep.cols.contains c then rep
    else rep.setCol c (rep.rows.map (fun _ => Value.num 0))
  rep.setCol c (rep.rows.map (fun r => Value.num (cellAt rep.cols r c).fillnaInt))

/-- A total comparison on cells used to model pandas sort_values ascending
with na_position='last': within a kind, the native order; null is greatest. -/
def valLe (a b : Value) : Bool :=
  match a, b with
  | .num m, .num n => decide (m ≤ n)
  | .str s, .str t => strLeB s t
  | .inst s, .inst t => decide (s ≤ t)
  | .null, .null => true
  | .null, _ => false
  | _, .null => true
  | .num _, _ => true
  | _, .num _ => false
  | .str _, _ => true
  | _, .str _ => false

/-- Row comparison for sort_values(by=['Username', 'Account']). -/
def usernameAccountLe (cols : List String) (r1 r2 : List Value) : Bool :=
  let u1 := cellAt cols r1 "Username"
  let u2 := cellAt cols r2 "Username"
  if u1 = u2 then valLe (cellAt cols r1 "Account") (cellAt cols r2 "Account")
  else valLe u1 u2

/-- Row comparison for sort_values(by=['Account']). -/
def accountLe (cols : List String) (r1 r2 : List Value) : Bool :=
  valLe (cellAt cols r1 "Account") (cellAt cols r2 "Account")

/-- The sort step of build_report_dataframe. -/
def sortReport (rep : Frame) : Frame :=
  if rep.cols.contains "Username" then
    ⟨rep.cols, stableSort (usernameAccountLe rep.cols) rep.rows⟩
  else ⟨rep.cols, stableSort (accountLe rep.cols) rep.rows⟩

/-- report[[...]]: the final column selection. -/
def selectCols (f : Frame) (cs : List String) : Frame :=
  ⟨cs, f.rows.map (fun r => cs.map (fun c => cellAt f.cols r c))⟩

/-- The report just before sorting: seed, the seven metric merges, the
ask-AI merge, and the fill loop. -/
def reportFilled (accounts usage askai : Frame) : Frame :=
  let rep := METRICS_USAGE_TYPE_MAP.foldl (addMetric usage) (reportInit accounts)
  let rep := mergeLeftOn rep
    (((count_askai_by_account askai).renameCol "account" "Account").renameCol
      "count" "AskAI Questions")
    "Account"
  COLUMNS_TO_FILL.foldl fillColumn rep

/-- build_report_dataframe. -/
def build_report_dataframe (accounts usage askai : Frame) : Frame :=
  if accounts.rows.isEmpty then ⟨REPORT_COLUMNS, []⟩
  else selectCols (sortReport (reportFilled accounts usage askai)) REPORT_COLUMNS

/- ---------- the export call-arity model (main / export_excel / export_docx) ---------- -/

/-- Outcome of binding a Python positional call against a parameter list with
no defaults and no varargs. -/
inductive PyCallResult where
  | ok
  | typeError
deriving DecidableEq, Repr

/-- Binding argCount positional arguments to paramCount mandatory parameters
raises TypeError unless the counts agree. -/
def callPositional (paramCount argCount : Nat) : PyCallResult :=
  if argCount = paramCount then PyCallResult.ok else PyCallResult.typeError

/-- export_excel's def takes exactly one parameter (df). -/
def export_excel_paramCount : Nat := 1

/-- export_docx's def takes exactly three parameters (df, start_dt, end_dt). -/
def export_docx_paramCount : Nat := 3

/-- main passes two positional arguments to export_excel (report_df, output_path). -/
def main_export_excel_argCount : Nat := 2

/-- main passes four positional arguments to export_docx
(report_df, output_path, start_dt, end_dt). -/
def main_export_docx_argCount : Nat := 4

/- ---------- derived forms used to state and prove the claims ---------- -/

/-- The normalised identity that build_report_dataframe assigns a roster row:
the resolved account-alias cell (null when no alias resolves), normalised. -/
def rosterIdentity (accounts : Frame) (r : List Value) : String :=
  normalizeAccount
    (match find_first_column accounts ACCOUNT_ALIASES with
     | some c => cellAt accounts.cols r c
     | none => Value.null)

/-- The username cell that build_report_dataframe assigns a roster row. -/
def usernameValue (accounts : Frame) (r : List Value) : Value :=
  match find_first_column accounts USERNAME_ALIASES with
  | some c => cellAt accounts.cols r c
  | none => Value.null

/-- The roster rows that survive the @thinkcol.com exclusion. -/
def survivingRows (accounts : Frame) : List (List Value) :=
  accounts.rows.filter
    (fun r => !(strEndsWith (rosterIdentity accounts r) "@thinkcol.com"))

/-- The normalised account of every usage event whose type is accepted; the
empty list when the guards of count_usage_by_account fire. -/
def usageAccts (usage : Frame) (usage_types : List String) : List String :=
  if usage.rows.isEmpty || usage_types.isEmpty then []
  else
    match find_first_column usage ACCOUNT_ALIASES, find_first_column usage USAGE_TYPE_ALIASES with
    | some ac, some tc =>
      (usage.rows.filter (fun r => (cellAt usage.cols r tc).isinStr usage_types)).map
        (fun r => normalizeAccount (cellAt usage.cols r ac))
    | _, _ => []

/-- The normalised account of every ask-AI event; empty under the guards of
count_askai_by_account. -/
def askaiAccts (askai : Frame) : List String :=
  if askai.rows.isEmpty then []
  else
    match find_first_column askai ACCOUNT_ALIASES with
    | some ac => askai.rows.map (fun r => normalizeAccount (cellAt askai.cols r ac))
    | none => []

/-- The cell a left-merge against a grouped count frame attaches to a report
row whose Account is v: the count when the (string) account occurs among the
events, null otherwise. -/
def countCell (accts : List String) (v : Value) : Value :=
  match v with
  | .str a => if 0 < accts.count a then Value.num (accts.count a : Int) else Value.null
  | _ => Value.null

/-- The closed form of one pre-sort report row: identity, username, the seven
usage metrics in METRICS_USAGE_TYPE_MAP order, then AskAI Questions. -/
def finalRow (accounts usage askai : Frame) (r : List Value) : List Value :=
  [Value.str (rosterIdentity accounts r),
   usernameValue accounts r,
   Value.num ((usageAccts usage []).count (rosterIdentity accounts r) : Int),
   Value.num ((usageAccts usage []).count (rosterIdentity accounts r) : Int),
   Value.num ((usageAccts usage ["transcript"]).count (rosterIdentity accounts r) : Int),
   Value.num ((usageAccts usage ["regenerate transcript"]).count (rosterIdentity accounts r) : Int),
   Value.num ((usageAccts usage ["initial summary"]).count (rosterIdentity accounts r) : Int),
   Value.num ((usageAccts usage ["regenerate summary"]).count (rosterIdentity accounts r) : Int),
   Value.num ((usageAccts usage ["regenerate note"]).count (rosterIdentity accounts r) : Int),
   Value.num ((askaiAccts askai).count (rosterIdentity accounts r) : Int)]

/- ---------- concrete example frames used by the witnesses ---------- -/

/-- Example timestamp frame: two epoch-second rows and one malformed row. -/
def w1F : Frame :=
  ⟨["createdAt"], [[Value.num 1700000000], [Value.num 1700000100], [Value.str "oops"]]⟩

/-- Example roster with one external and one internal account. -/
def w2A : Frame :=
  ⟨["email", "name"],
   [[Value.str " A@X.com ", Value.str "Alice"],
    [Value.str "admin@ThinkCol.com", Value.str "Staff"]]⟩

/-- Example usage events: one transcript event for the external account. -/
def w2U : Frame :=
  ⟨["email", "usage_type"], [[Value.str "A@X.com", Value.str "transcript"]]⟩

/-- Example empty event frame. -/
def w2K : Frame := ⟨[], []⟩

/-- Example frame whose createdAt column straddles the end boundary. -/
def w4F : Frame := ⟨["createdAt"], [[Value.num 86399], [Value.num 86400]]⟩

/-- Example roster with no recognisable username field. -/
def w5A : Frame := ⟨["email"], [[Value.str "b@y.com"], [Value.str "a@x.com"]]⟩

/-- Example frame with no recognisable timestamp field. -/
def w7F : Frame := ⟨["foo"], [[Value.num 1]]⟩

/-- Example usage frame for the aggregator: two accounts, mixed types. -/
def w8F : Frame :=
  ⟨["user_email", "type"],
   [[Value.str "A@X.com", Value.str "transcript"],
    [Value.str " a@x.com", Value.str "transcript"],
    [Value.str "b@y.com", Value.str "other"]]⟩

/- ---------- helper lemmas: the stable sort ---------- -/

/-- Membership through a stable insertion. -/
theorem mem_stableInsert {le : α → α → Bool} {x a : α} {l : List α} :
    a ∈ stableInsert le x l ↔ a = x ∨ a ∈ l := by
  induction l with
  | nil => simp [stableInsert]
  | cons y ys ih =>
    simp only [stableInsert]
    split
    · simp [List.mem_cons]
    · simp only [List.mem_cons, ih]
      tauto

/-- A stable insertion is a permutation of consing. -/
theorem perm_stableInsert (le : α → α → Bool) (x : α) (l : List α) :
    (stableInsert le x l).Perm (x :: l) := by
  induction l with
  | nil => exact List.Perm.refl _
  | cons y ys ih =>
    simp only [stableInsert]
    split
    · exact List.Perm.refl _
    · exact (ih.cons y).trans (List.Perm.swap x y ys)

/-- The stable sort permutes its input. -/
theorem perm_stableSort (le : α → α → Bool) (l : List α) :
    (stableSort le l).Perm l := by
  induction l with
  | nil => exact List.Perm.refl _
  | cons x xs ih =>
    exact (perm_stableInsert le x (stableSort le xs)).trans (ih.cons x)

/-- Membership through the stable sort. -/
theorem mem_stableSort {le : α → α → Bool} {a : α} {l : List α} :
    a ∈ stableSort le l ↔ a ∈ l :=
  (perm_stableSort le l).mem_iff

/-- Length through the stable sort. -/
theorem length_stableSort (le : α → α → Bool) (l : List α) :
    (stableSort le l).length = l.length :=
  (perm_stableSort le l).length_eq

/-- Inserting into a sorted list keeps it sorted, for a total transitive
comparison. -/
theorem pairwise_stableInsert {le : α → α → Bool}
    (htot : ∀ a b, le a b = true ∨ le b a = true)
    (htrans : ∀ a b c, le a b = true → le b c = true → le a c = true)
    (x : α) (l : List α) (h : l.Pairwise (fun a b => le a b = true)) :
    (stableInsert le x l).Pairwise (fun a b => le a b = true) := by
  induction l with
  | nil => simp [stableInsert]
  | cons y ys ih =>
    rw [List.pairwise_cons] at h
    obtain ⟨hy, hys⟩ := h
    simp only [stableInsert]
    split
    · rename_i hxy
      refine List.pairwise_cons.mpr ⟨?_, List.pairwise_cons.mpr ⟨hy, hys⟩⟩
      intro z hz
      rcases List.mem_cons.mp hz with rfl | hz
      · exact hxy
      · exact htrans x y z hxy (hy z hz)
    · rename_i hxy
      have hyx : le y x = true := by
        rcases htot x y with h | h
        · exact absurd h hxy
        · exact h
      refine List.pairwise_cons.mpr ⟨?_, ih hys⟩
      intro z hz
      rcases mem_stableInsert.mp hz with rfl | hz
      · exact hyx
      · exact hy z hz

/-- The stable sort sorts, for a total transitive comparison. -/
theorem pairwise_stableSort {le : α → α → Bool}
    (htot : ∀ a b, le a b = true ∨ le b a = true)
    (htrans : ∀ a b c, le a b = true → le b c = true → le a c = true)
    (l : List α) :
    (stableSort le l).Pairwise (fun a b => le a b = true) := by
  induction l with
  | nil => simp [stableSort]
  | cons x xs ih => exact pairwise_stableInsert htot htrans x _ ih

/-- Insertions by comparisons that agree on the points involved coincide. -/
theorem stableInsert_congr {le1 le2 : α → α → Bool} (x : α) {l : List α}
    (h : ∀ b ∈ l, le1 x b = le2 x b) :
    stableInsert le1 x l = stableInsert le2 x l := by
  induction l with
  | nil => rfl
  | cons y ys ih =>
    simp only [stableInsert]
    rw [h y (List.mem_cons_self y ys)]
    split
    · rfl
    · rw [ih (fun b hb => h b (List.mem_cons_of_mem y hb))]

/-- Sorts by comparisons that agree on the list's elements coincide. -/
theorem stableSort_congr {le1 le2 : α → α → Bool} {l : List α}
    (h : ∀ a ∈ l, ∀ b ∈ l, le1 a b = le2 a b) :
    stableSort le1 l = stableSort le2 l := by
  induction l with
  | nil => rfl
  | cons x xs ih =>
    simp only [stableSort]
    rw [ih (fun a ha b hb =>
      h a (List.mem_cons_of_mem x ha) b (List.mem_cons_of_mem x hb))]
    exact stableInsert_congr x (fun b hb =>
      h x (List.mem_cons_self x xs) b (List.mem_cons_of_mem x (mem_stableSort.mp hb)))

/- ---------- helper lemmas: column lookup ---------- -/

/-- Unfolding colIdx on a cons cell. -/
theorem colIdx_cons (x : String) (xs : List String) (c : String) :
    colIdx (x :: xs) c = if x = c then some 0 else (colIdx xs c).map (· + 1) := rfl

/-- colIdx misses exactly the absent columns. -/
theorem colIdx_eq_none_iff {cols : List String} {c : String} :
    colIdx cols c = none ↔ c ∉ cols := by
  induction cols with
  | nil => simp [colIdx]
  | cons x xs ih =>
    rw [colIdx_cons]
    by_cases hx : x = c
    · simp [hx]
    · simp [hx, ih, Ne.symm hx]

/-- A found column index is within the column list. -/
theorem colIdx_lt {cols : List String} {c : String} {i : Nat}
    (h : colIdx cols c = some i) : i < cols.length := by
  induction cols generalizing i with
  | nil => simp [colIdx] at h
  | cons x xs ih =>
    rw [colIdx_cons] at h
    split at h
    · simp only [Option.some_inj] at h
      simp [← h]
    · rcases Option.map_eq_some'.mp h with ⟨j, hj, rfl⟩
      have := ih hj
      simp only [List.length_cons]
      omega

/-- A found column index holds the looked-up name. -/
theorem colIdx_getD {cols : List String} {c : String} {i : Nat}
    (h : colIdx cols c = some i) (d : String) : cols.getD i d = c := by
  induction cols generalizing i with
  | nil => simp [colIdx] at h
  | cons x xs ih =>
    rw [colIdx_cons] at h
    split at h
    · rename_i hx
      have : i = 0 := by simpa using h.symm
      subst this
      simpa using hx
    · rcases Option.map_eq_some'.mp h with ⟨j, hj, rfl⟩
      simpa using ih hj

/-- Distinct names found in the same column list sit at distinct indices. -/
theorem colIdx_ne {cols : List String} {c d : String} {i j : Nat}
    (hc : colIdx cols c = some i) (hd : colIdx cols d = some j)
    (hcd : c ≠ d) : i ≠ j := by
  intro hij
  subst hij
  exact hcd ((colIdx_getD hc "").symm.trans (colIdx_getD hd ""))

/-- Looking up a present column succeeds. -/
theorem colIdx_isSome_of_mem {cols : List String} {c : String} (h : c ∈ cols) :
    ∃ i, colIdx cols c = some i := by
  rcases h' : colIdx cols c with _ | i
  · exact absurd (colIdx_eq_none_iff.mp h') (by simp [h])
  · exact ⟨i, rfl⟩

/-- Appending columns on the right does not move an existing column. -/
theorem colIdx_append_left {cols : List String} {c : String} {i : Nat}
    (h : colIdx cols c = some i) (l : List String) :
    colIdx (cols ++ l) c = some i := by
  induction cols generalizing i with
  | nil => simp [colIdx] at h
  | cons x xs ih =>
    rw [colIdx_cons] at h
    rw [List.cons_append, colIdx_cons]
    split at h
    · rename_i hx
      simp only [hx, if_true]
      exact h
    · rename_i hx
      simp only [hx, if_false]
      rcases Option.map_eq_some'.mp h with ⟨j, hj, rfl⟩
      rw [ih hj]
      rfl

/-- A fresh column appended on the right lands at the old length. -/
theorem colIdx_append_self {cols : List String} {c : String} (h : c ∉ cols) :
    colIdx (cols ++ [c]) c = some cols.length := by
  induction cols with
  | nil => simp [colIdx]
  | cons x xs ih =>
    have hx : x ≠ c := fun hxc => h (hxc ▸ List.mem_cons_self x xs)
    rw [List.cons_append, colIdx_cons]
    simp only [hx, if_false]
    rw [ih (fun hc => h (List.mem_cons_of_mem x hc))]
    rfl

/-- contains agrees with membership on column lists. -/
theorem contains_iff_mem {cols : List String} {c : String} :
    cols.contains c = true ↔ c ∈ cols := by
  simp [List.contains]

/- ---------- helper lemmas: reading and writing frame columns ---------- -/

/-- Zipping a list with a map of itself is a map of pairs. -/
theorem zip_map_self {α β γ : Type _} (l : List α) (f : α → β) (g : α × β → γ) :
    ((l.zip (l.map f)).map g) = l.map (fun x => g (x, f x)) := by
  induction l with
  | nil => rfl
  | cons x xs ih =>
    simp only [List.map_cons, List.zip_cons_cons, List.map_cons]
    exact congrArg (List.cons (g (x, f x))) ih

/-- A flatMap producing singletons is a map. -/
theorem flatMap_singleton_eq_map {α β : Type _} (l : List α) (g : α → β) :
    (l.flatMap (fun x => [g x])) = l.map g := by
  induction l with
  | nil => rfl
  | cons x xs ih => simp [List.flatMap_cons, ih]

/-- Reading an absent column yields null. -/
theorem cellAt_of_not_mem {cols : List String} {c : String} (h : c ∉ cols)
    (r : List Value) : cellAt cols r c = Value.null := by
  simp [cellAt, colIdx_eq_none_iff.mpr h]

/-- Reading the head column reads the first cell. -/
theorem cellAt_head (cs : List String) (r : List Value) (c : String) :
    cellAt (c :: cs) r c = r.getD 0 Value.null := by
  simp [cellAt, colIdx_cons]

/-- Reading an existing column is untouched by columns appended after it. -/
theorem cellAt_append_cols {cols : List String} {c : String} {i : Nat}
    (h : colIdx cols c = some i) (l : List String) (r : List Value) :
    cellAt (cols ++ l) r c = cellAt cols r c := by
  simp [cellAt, h, colIdx_append_left h l]

/-- Reading a full row below the old width ignores an appended cell. -/
theorem getD_append_lt {r : List Value} {i : Nat} (h : i < r.length) (v w : Value) :
    (r ++ [v]).getD i w = r.getD i w := by
  rw [List.getD_eq_getElem?_getD, List.getD_eq_getElem?_getD, List.getElem?_append]
  simp [h]

/-- Reading the appended cell of a widened full row. -/
theorem getD_append_self (r : List Value) (v w : Value) :
    (r ++ [v]).getD r.length w = v := by
  rw [List.getD_eq_getElem?_getD, List.getElem?_append]
  simp

/-- Setting one position leaves the others unchanged. -/
theorem getD_set_ne {r : List Value} {i j : Nat} (h : i ≠ j) (v w : Value) :
    (r.set i v).getD j w = r.getD j w := by
  rw [List.getD_eq_getElem?_getD, List.getD_eq_getElem?_getD, List.getElem?_set_ne h]

/-- Setting a position inside the row stores the value there. -/
theorem getD_set_self {r : List Value} {i : Nat} (h : i < r.length) (v w : Value) :
    (r.set i v).getD i w = v := by
  rw [List.getD_eq_getElem?_getD, List.getElem?_set_self h]
  rfl

/-- Reading back an overwritten column position, rowwise. -/
theorem map_getD_zip_set {i : Nat} :
    ∀ (rows : List (List Value)) (vals : List Value),
      (∀ r ∈ rows, i < r.length) → vals.length = rows.length →
      (((rows.zip vals).map (fun p => p.1.set i p.2)).map
        (fun r => r.getD i Value.null)) = vals := by
  intro rows
  induction rows with
  | nil =>
    intro vals _ hlen
    simp at hlen
    simp [hlen]
  | cons r rs ih =>
    intro vals hlt hlen
    cases vals with
    | nil => simp at hlen
    | cons v vs =>
      simp only [List.zip_cons_cons, List.map_cons]
      rw [getD_set_self (hlt r (List.mem_cons_self r rs))]
      rw [ih vs (fun r' hr' => hlt r' (List.mem_cons_of_mem r hr')) (by simpa using hlen)]

/-- Reading back an appended column position, rowwise. -/
theorem map_getD_zip_append {L : Nat} :
    ∀ (rows : List (List Value)) (vals : List Value),
      (∀ r ∈ rows, r.length = L) → vals.length = rows.length →
      (((rows.zip vals).map (fun p => p.1 ++ [p.2])).map
        (fun r => r.getD L Value.null)) = vals := by
  intro rows
  induction rows with
  | nil =>
    intro vals _ hlen
    simp at hlen
    simp [hlen]
  | cons r rs ih =>
    intro vals hL hlen
    cases vals with
    | nil => simp at hlen
    | cons v vs =>
      simp only [List.zip_cons_cons, List.map_cons]
      have hr : r.length = L := hL r (List.mem_cons_self r rs)
      have hhead : (r ++ [v]).getD L Value.null = v := by
        rw [← hr]
        exact getD_append_self r v _
      rw [hhead]
      rw [ih vs (fun r' hr' => hL r' (List.mem_cons_of_mem r hr')) (by simpa using hlen)]

/-- Writing a column and reading it back returns the written values. -/
theorem colVals_setCol (f : Frame) (c : String) (vals : List Value)
    (hWF : f.WF) (hlen : vals.length = f.rows.length) :
    (f.setCol c vals).colVals c = vals := by
  rcases h : colIdx f.cols c with _ | i
  · have hnm : c ∉ f.cols := colIdx_eq_none_iff.mp h
    simp only [Frame.setCol, h, Frame.colVals, cellAt, colIdx_append_self hnm]
    exact map_getD_zip_append f.rows vals hWF hlen
  · have hi : i < f.cols.length := colIdx_lt h
    simp only [Frame.setCol, h, Frame.colVals, cellAt]
    exact map_getD_zip_set f.rows vals (fun r hr => (hWF r hr) ▸ hi) hlen

/- ---------- C1: the timestamp majority rule ---------- -/

/-- C1: coerce_created_at applies the strict majority rule to the resolved
timestamp column: when more than half of the values convert to numeric the
whole column is interpreted as epoch-based, as milliseconds when the maximum
numeric value exceeds 1e12 and as seconds otherwise, and the values that
failed numeric conversion become null instants with no secondary string-parse
attempt; otherwise every value is parsed independently as a UTC date/time
string, unparseable values becoming null instants. -/
theorem C1_coerce_majority (f : Frame) (hWF : f.WF) (c : String)
    (hc : find_first_column f CREATED_AT_ALIASES = some c) :
    (2 * (((f.colVals c).map Value.toNumeric).filterMap id).length > f.rows.length →
      (coerce_created_at f).colVals "createdAt_dt" =
        (if intMax (((f.colVals c).map Value.toNumeric).filterMap id) > 1000000000000
         then epochCol ((f.colVals c).map Value.toNumeric) 1000
         else epochCol ((f.colVals c).map Value.toNumeric) 1000000))
    ∧ (¬ 2 * (((f.colVals c).map Value.toNumeric).filterMap id).length > f.rows.length →
      (coerce_created_at f).colVals "createdAt_dt" = (f.colVals c).map strParseVal) := by
  by_cases hemp : f.rows.isEmpty = true
  · have hrows : f.rows = [] := by simpa using hemp
    constructor
    · intro hmaj
      rw [hrows] at hmaj
      simp [Frame.colVals, hrows] at hmaj
    · intro _
      have hid : coerce_created_at f = f := by simp [coerce_created_at, hemp]
      rw [hid]
      simp [Frame.colVals, hrows]
  · have hexp : coerce_created_at f =
        f.setCol "createdAt_dt"
          (if 2 * (((f.colVals c).map Value.toNumeric).filterMap id).length > f.rows.length then
            (if intMax (((f.colVals c).map Value.toNumeric).filterMap id) > 1000000000000
             then epochCol ((f.colVals c).map Value.toNumeric) 1000
             else epochCol ((f.colVals c).map Value.toNumeric) 1000000)
          else (f.colVals c).map strParseVal) := by
      simp only [coerce_created_at, hc]
      rw [if_neg hemp]
      rfl
    rw [hexp]
    constructor
    · intro hmaj
      rw [if_pos hmaj]
      apply colVals_setCol f _ _ hWF
      split <;> simp [epochCol, Frame.colVals]
    · intro hmaj
      rw [if_neg hmaj]
      apply colVals_setCol f _ _ hWF
      simp [Frame.colVals]

/-- Witness for C1 at w1F (two epoch-second rows, one malformed row): the
column becomes epoch-second instants, the failure a null instant. -/
theorem C1_coerce_majority_witness :
    (coerce_created_at w1F).colVals "createdAt_dt" =
      [Value.inst 1700000000000000, Value.inst 1700000100000000, Value.null] := by
  have h := (C1_coerce_majority w1F (by decide) "createdAt" rfl).1 (by decide)
  rw [h]
  decide

/- ---------- C4: the inclusive date-range filter ---------- -/

/-- C4: for an interval produced by resolve_date_range, filter_by_date keeps
exactly the rows whose derived instant t satisfies start <= t <= end: a row
stamped exactly at the end instant passes, one microsecond or one second
later fails, a null instant fails, and the end instant is the 23:59:59 UTC
end of a day. -/
theorem C4_filter_inclusive_boundary (f : Frame) (sd ed : Option Int) (today s e : Int)
    (hse : resolve_date_range sd ed today = (s, e)) :
    ((filter_by_date f s e).rows =
      (withInstant f).rows.filter
        (fun r => (cellAt (withInstant f).cols r "createdAt_dt").inRange s e))
    ∧ (s ≤ e → (Value.inst e).inRange s e = true)
    ∧ (Value.inst (e + 1)).inRange s e = false
    ∧ (Value.inst (e + usPerSec)).inRange s e = false
    ∧ Value.null.inRange s e = false
    ∧ ∃ d : Int, e = d * usPerDay + 86399 * usPerSec := by
  refine ⟨?_, ?_, ?_, ?_, ?_, ?_⟩
  · by_cases hemp : f.rows.isEmpty = true
    · have hrows : f.rows = [] := by simpa using hemp
      have hwi : (withInstant f).rows = [] := by
        unfold withInstant
        split
        · exact hrows
        · simp [coerce_created_at, hemp, hrows]
      simp [filter_by_date, hemp, hrows, hwi]
    · unfold filter_by_date
      rw [if_neg hemp]
      by_cases hcon : (withInstant f).cols.contains "createdAt_dt" = true
      · rw [if_neg (by simpa using hcon)]
        by_cases hall : ((withInstant f).rows.all
            (fun r => decide (cellAt (withInstant f).cols r "createdAt_dt" = Value.null))) = true
        · rw [if_pos hall]
          have hnull : ∀ r ∈ (withInstant f).rows,
              cellAt (withInstant f).cols r "createdAt_dt" = Value.null := by
            intro r hr
            have := List.all_eq_true.mp hall r hr
            simpa using this
          refine Eq.symm (List.filter_eq_nil_iff.mpr ?_)
          intro r hr
          rw [hnull r hr]
          simp [Value.inRange]
        · rw [if_neg hall]
      · rw [if_pos (by simpa using hcon)]
        have hnm : "createdAt_dt" ∉ (withInstant f).cols := by
          intro hm
          exact hcon (contains_iff_mem.mpr hm)
        refine Eq.symm (List.filter_eq_nil_iff.mpr ?_)
        intro r hr
        rw [cellAt_of_not_mem hnm]
        simp [Value.inRange]
  · intro hle
    simp [Value.inRange, hle]
  · simp [Value.inRange]
  · simp [Value.inRange, usPerSec]
  · rfl
  · rcases ed with _ | d
    · simp only [resolve_date_range] at hse
      rw [Prod.mk.injEq] at hse
      refine ⟨today, ?_⟩
      rw [← hse.2]
      simp only [usPerDay, usPerSec]
      omega
    · simp only [resolve_date_range] at hse
      rw [Prod.mk.injEq] at hse
      refine ⟨d, ?_⟩
      rw [← hse.2]
      simp only [usPerDay, usPerSec]
      omega

/-- Witness for C4 at w4F with the range of day 0: the 23:59:59 row is kept,
the 00:00:00 row of the next day is dropped. -/
theorem C4_filter_inclusive_boundary_witness :
    (filter_by_date w4F 0 86399000000).rows = [[Value.num 86399, Value.inst 86399000000]] := by
  have h := (C4_filter_inclusive_boundary w4F (some 0) (some 0) 0 0 86399000000 rfl).1
  rw [h]
  decide

/- ---------- C7: unresolvable timestamp field ---------- -/

/-- C7: when no timestamp alias resolves against the columns (and no derived
instant column exists), filter_by_date returns an empty collection instead of
raising. -/
theorem C7_filter_unresolvable_empty (f : Frame) (s e : Int)
    (h1 : find_first_column f CREATED_AT_ALIASES = none)
    (h2 : "createdAt_dt" ∉ f.cols) :
    (filter_by_date f s e).rows = [] := by
  by_cases hemp : f.rows.isEmpty = true
  · have hrows : f.rows = [] := by simpa using hemp
    simp [filter_by_date, hemp, hrows]
  · have hwi : withInstant f = f := by
      unfold withInstant
      rw [if_neg (fun hc => h2 (contains_iff_mem.mp hc))]
      simp [coerce_created_at, h1]
    unfold filter_by_date
    rw [if_neg hemp]
    rw [hwi]
    rw [if_pos (fun hc => h2 (contains_iff_mem.mp hc))]

/-- Witness for C7 at w7F, whose only column is unrecognised. -/
theorem C7_filter_unresolvable_empty_witness :
    (filter_by_date w7F 0 10).rows = [] :=
  C7_filter_unresolvable_empty w7F 0 10 rfl (by decide)

/- ---------- C6: the export call arity mismatch ---------- -/

/-- C6: main's export step always raises TypeError: it passes two positional
arguments to the one-parameter export_excel and four to the three-parameter
export_docx, so a run reaching the export step cannot print its success
message. -/
theorem C6_main_export_arity_mismatch :
    callPositional export_excel_paramCount main_export_excel_argCount = PyCallResult.typeError
    ∧ callPositional export_docx_paramCount main_export_docx_argCount = PyCallResult.typeError :=
  ⟨rfl, rfl⟩

/- ---------- C9: determinism of the assembler ---------- -/

/-- C9: the Report Assembler is deterministic: two runs on equal frozen
inputs produce equal report tables. -/
theorem C9_assembler_deterministic (a1 u1 k1 a2 u2 k2 : Frame)
    (ha : a1 = a2) (hu : u1 = u2) (hk : k1 = k2) :
    build_report_dataframe a1 u1 k1 = build_report_dataframe a2 u2 k2 := by
  subst ha
  subst hu
  subst hk
  rfl

/-- Witness for C9 at concrete inputs. -/
theorem C9_assembler_deterministic_witness :
    build_report_dataframe w2A w2U w2K = build_report_dataframe w2A w2U w2K :=
  C9_assembler_deterministic w2A w2U w2K w2A w2U w2K rfl rfl rfl

/- ---------- C8: totality of the per-account aggregator ---------- -/

/-- The rows of a grouped count are exactly the positive per-key counts. -/
theorem mem_groupCountRows {accts : List String} {a : String} {n : Int} :
    [Value.str a, Value.num n] ∈ groupCountRows accts ↔
      (n = (accts.count a : Int) ∧ 0 < n) := by
  unfold groupCountRows
  rw [List.mem_map]
  constructor
  · rintro ⟨k, hk, heq⟩
    have hk' : k ∈ accts := mem_stableSort.mp (List.mem_dedup.mp hk)
    simp only [List.cons.injEq, Value.str.injEq, Value.num.injEq, and_true] at heq
    obtain ⟨rfl, hkn⟩ := heq
    refine ⟨hkn.symm, ?_⟩
    rw [← hkn]
    exact_mod_cast List.count_pos_iff.mpr hk'
  · rintro ⟨rfl, hn⟩
    refine ⟨a, ?_, rfl⟩
    rw [List.mem_dedup, mem_stableSort]
    exact List.count_pos_iff.mp (by exact_mod_cast hn)

/-- C8: count_usage_by_account never fails: it returns the empty two-column
result when the accepted-type list is empty or either field alias cannot be
resolved, and otherwise returns exactly the positive per-account counts of
the events with an accepted usage type, grouped by trimmed lower-cased
account identity. -/
theorem C8_count_usage_total (usage : Frame) (usage_types : List String) :
    (count_usage_by_account usage usage_types).cols = ["account", "count"]
    ∧ (usage_types = [] → (count_usage_by_account usage usage_types).rows = [])
    ∧ ((find_first_column usage ACCOUNT_ALIASES = none ∨
        find_first_column usage USAGE_TYPE_ALIASES = none) →
        (count_usage_by_account usage usage_types).rows = [])
    ∧ (∀ ac tc, find_first_column usage ACCOUNT_ALIASES = some ac →
        find_first_column usage USAGE_TYPE_ALIASES = some tc →
        usage_types ≠ [] →
        ∀ (a : String) (n : Int),
          [Value.str a, Value.num n] ∈ (count_usage_by_account usage usage_types).rows ↔
            (n = (((usage.rows.filter
                (fun r => (cellAt usage.cols r tc).isinStr usage_types)).map
                (fun r => normalizeAccount (cellAt usage.cols r ac))).count a : Int)
             ∧ 0 < n)) := by
  refine ⟨?_, ?_, ?_, ?_⟩
  · unfold count_usage_by_account
    split
    · rfl
    · split <;> rfl
  · intro h
    subst h
    simp [count_usage_by_account]
  · intro h
    unfold count_usage_by_account
    split
    · rfl
    · rcases hA : find_first_column usage ACCOUNT_ALIASES with _ | ac <;>
        rcases hT : find_first_column usage USAGE_TYPE_ALIASES with _ | tc
      · rfl
      · rfl
      · rfl
      · exfalso
        rcases h with h' | h'
        · rw [hA] at h'
          exact Option.noConfusion h'
        · rw [hT] at h'
          exact Option.noConfusion h'
  · intro ac tc hac htc hne a n
    by_cases hemp : usage.rows.isEmpty = true
    · have hrows : usage.rows = [] := by simpa using hemp
      simp only [count_usage_by_account, hemp, Bool.true_or, if_true, hrows]
      simp only [List.filter_nil, List.map_nil, List.count_nil]
      constructor
      · intro h
        exact absurd h (List.not_mem_nil _)
      · rintro ⟨rfl, hn⟩
        simp at hn
    · have hg : count_usage_by_account usage usage_types =
          ⟨["account", "count"],
           groupCountRows ((usage.rows.filter
              (fun r => (cellAt usage.cols r tc).isinStr usage_types)).map
              (fun r => normalizeAccount (cellAt usage.cols r ac)))⟩ := by
        have hcond : ¬ (usage.rows.isEmpty || usage_types.isEmpty) = true := by
          simp only [Bool.or_eq_true]
          rintro (h' | h')
          · exact hemp h'
          · exact hne (by simpa using h')
        unfold count_usage_by_account
        rw [if_neg hcond]
        rw [hac, htc]
      rw [hg]
      exact mem_groupCountRows

/-- Witness for C8 at w8F: the two transcript events normalise to the same
account and are counted together. -/
theorem C8_count_usage_total_witness :
    [Value.str "a@x.com", Value.num 2] ∈ (count_usage_by_account w8F ["transcript"]).rows := by
  have h := (C8_count_usage_total w8F ["transcript"]).2.2.2 "user_email" "type" rfl rfl
    (by decide) "a@x.com" 2
  exact h.mpr (by decide)

/- ---------- helper lemmas: renames and alias resolution ---------- -/

/-- Renaming a column to itself changes nothing. -/
theorem renameCol_self (f : Frame) (c : String) : f.renameCol c c = f := by
  cases f with
  | mk cols rows =>
    simp only [Frame.renameCol, Frame.mk.injEq, and_true]
    rw [List.map_congr_left (g := id) (fun x _ => by split <;> simp_all)]
    exact List.map_id cols

/-- Looking up the new name after a rename to a fresh name finds the old
column's position. -/
theorem colIdx_rename_target {cols : List String} {old nw : String} (h : nw ∉ cols) :
    colIdx (cols.map (fun x => if x = old then nw else x)) nw = colIdx cols old := by
  induction cols with
  | nil => rfl
  | cons x xs ih =>
    have hx : x ≠ nw := fun hxnw => h (hxnw ▸ List.mem_cons_self x xs)
    simp only [List.map_cons, colIdx_cons]
    by_cases hxo : x = old
    · simp [hxo]
    · simp only [hxo, if_false, if_neg hxo]
      rw [if_neg hx]
      rw [ih (fun hm => h (List.mem_cons_of_mem x hm))]

/-- Looking up an uninvolved name is unchanged by a rename. -/
theorem colIdx_rename_other {cols : List String} {old nw d : String}
    (h1 : d ≠ old) (h2 : d ≠ nw) :
    colIdx (cols.map (fun x => if x = old then nw else x)) d = colIdx cols d := by
  induction cols with
  | nil => rfl
  | cons x xs ih =>
    simp only [List.map_cons, colIdx_cons]
    by_cases hxo : x = old
    · rw [if_pos hxo, if_neg (Ne.symm h2), if_neg (hxo ▸ Ne.symm h1), ih]
    · rw [if_neg hxo, ih]

/-- Reading the new name after renameCol reads the old column, provided the
new name was fresh or the rename is trivial. -/
theorem cellAt_renameCol_target (f : Frame) (old nw : String)
    (h : nw ∉ f.cols ∨ nw = old) (r : List Value) :
    cellAt (f.renameCol old nw).cols r nw = cellAt f.cols r old := by
  rcases h with h | rfl
  · simp only [Frame.renameCol, cellAt]
    rw [colIdx_rename_target h]
  · rw [renameCol_self]

/-- Reading an uninvolved column is unchanged by renameCol. -/
theorem cellAt_renameCol_other (f : Frame) (old nw d : String)
    (h1 : d ≠ old) (h2 : d ≠ nw) (r : List Value) :
    cellAt (f.renameCol old nw).cols r d = cellAt f.cols r d := by
  simp only [Frame.renameCol, cellAt]
  rw [colIdx_rename_other h1 h2]

/-- The new name is present after renaming a present column. -/
theorem mem_renameCol_target {f : Frame} {old : String} (h : old ∈ f.cols) (nw : String) :
    nw ∈ (f.renameCol old nw).cols := by
  simp only [Frame.renameCol]
  exact List.mem_map.mpr ⟨old, h, by simp⟩

/-- An absent name distinct from the rename's new name stays absent. -/
theorem not_mem_renameCol {f : Frame} {nw d : String} (old : String)
    (h1 : d ∉ f.cols) (h2 : d ≠ nw) :
    d ∉ (f.renameCol old nw).cols := by
  simp only [Frame.renameCol]
  intro hm
  rcases List.mem_map.mp hm with ⟨x, hx, hxd⟩
  by_cases hxo : x = old
  · rw [hxo, if_pos rfl] at hxd
    exact h2 hxd.symm
  · rw [if_neg hxo] at hxd
    exact h1 (hxd ▸ hx)

/-- renameCol keeps the rows and the column count. -/
theorem renameCol_rows (f : Frame) (old nw : String) :
    (f.renameCol old nw).rows = f.rows := rfl

/-- renameCol preserves rectangularity. -/
theorem renameCol_WF {f : Frame} (old nw : String) (h : f.WF) :
    (f.renameCol old nw).WF := by
  intro r hr
  simp only [Frame.renameCol, List.length_map]
  exact h r hr

/-- A successful alias resolution returns a present alias. -/
theorem find_first_column_mem {f : Frame} {als : List String} {c : String}
    (h : find_first_column f als = some c) : c ∈ f.cols ∧ c ∈ als := by
  constructor
  · have := List.find?_some h
    exact contains_iff_mem.mp this
  · exact List.mem_of_find?_eq_some h

/-- A failed alias resolution means every alias is absent. -/
theorem find_first_column_none {f : Frame} {als : List String}
    (h : find_first_column f als = none) : ∀ a ∈ als, a ∉ f.cols := by
  intro a ha hm
  have := List.find?_eq_none.mp h a ha
  exact (by simpa [contains_iff_mem] using this : a ∉ f.cols) hm

/-- When the head alias is not the one found, it is absent from the columns
(aliases are probed in order). -/
theorem head_alias_absent {f : Frame} {a0 : String} {rest : List String} {c : String}
    (h : find_first_column f (a0 :: rest) = some c) (hne : c ≠ a0) :
    a0 ∉ f.cols := by
  intro hm
  unfold find_first_column at h
  rw [List.find?_cons_of_pos _ (contains_iff_mem.mpr hm)] at h
  exact hne (by simpa using h.symm)

/-- A present column distinct from the renamed one stays present. -/
theorem mem_renameCol_of_ne {f : Frame} {old d : String} (hd : d ∈ f.cols)
    (hne : d ≠ old) (nw : String) : d ∈ (f.renameCol old nw).cols := by
  simp only [Frame.renameCol]
  refine List.mem_map.mpr ⟨d, hd, ?_⟩
  rw [if_neg hne]

/-- The rename step: rows untouched, column count kept, and the account and
username columns read back the resolved alias cells (null when unresolved). -/
theorem rosterRenamed_spec (accounts : Frame) :
    (rosterRenamed accounts).rows = accounts.rows
    ∧ (rosterRenamed accounts).cols.length = accounts.cols.length
    ∧ (∀ r, cellAt (rosterRenamed accounts).cols r "account" =
        (match find_first_column accounts ACCOUNT_ALIASES with
         | some c => cellAt accounts.cols r c
         | none => Value.null))
    ∧ (∀ r, cellAt (rosterRenamed accounts).cols r "username" = usernameValue accounts r)
    ∧ ("account" ∈ (rosterRenamed accounts).cols ↔
        find_first_column accounts ACCOUNT_ALIASES ≠ none)
    ∧ ("username" ∈ (rosterRenamed accounts).cols ↔
        find_first_column accounts USERNAME_ALIASES ≠ none) := by
  have haccU : "account" ∉ USERNAME_ALIASES := by decide
  have husrA : "username" ∉ ACCOUNT_ALIASES := by decide
  have hdisj : ∀ x ∈ ACCOUNT_ALIASES, x ∉ USERNAME_ALIASES := by decide
  unfold rosterRenamed usernameValue
  rcases hA : find_first_column accounts ACCOUNT_ALIASES with _ | c <;>
    rcases hU : find_first_column accounts USERNAME_ALIASES with _ | c' <;>
    dsimp only
  · -- no account alias, no username alias
    have h1 : "account" ∉ accounts.cols :=
      find_first_column_none hA "account" (by decide)
    have h2 : "username" ∉ accounts.cols :=
      find_first_column_none hU "username" (by decide)
    refine ⟨rfl, rfl, ?_, ?_, by simp [h1], by simp [h2]⟩
    · intro r
      exact cellAt_of_not_mem h1 r
    · intro r
      exact cellAt_of_not_mem h2 r
  · -- username alias only
    have h1 : "account" ∉ accounts.cols :=
      find_first_column_none hA "account" (by decide)
    obtain ⟨hc'mem, hc'al⟩ := find_first_column_mem hU
    have hc'acc : c' ≠ "account" := fun h => haccU (h ▸ hc'al)
    have hB : (if c' ≠ "username" then accounts.renameCol c' "username" else accounts) =
        accounts.renameCol c' "username" := by
      by_cases hcu : c' = "username"
      · rw [if_neg (by simpa using hcu), hcu, renameCol_self]
      · rw [if_pos hcu]
    rw [hB]
    have hfresh : "username" ∉ accounts.cols ∨ "username" = c' := by
      by_cases hcu : c' = "username"
      · exact Or.inr hcu.symm
      · exact Or.inl (head_alias_absent hU hcu)
    have hanm : "account" ∉ (accounts.renameCol c' "username").cols :=
      not_mem_renameCol c' h1 (by decide)
    refine ⟨rfl, by simp [Frame.renameCol], ?_, ?_, by simp [hanm], ?_⟩
    · intro r
      exact cellAt_of_not_mem hanm r
    · intro r
      exact cellAt_renameCol_target accounts c' "username" hfresh r
    · exact iff_of_true (mem_renameCol_target hc'mem "username") (by simp)
  · -- account alias only
    obtain ⟨hcmem, hcal⟩ := find_first_column_mem hA
    have hcusr : c ≠ "username" := fun h => husrA (h ▸ hcal)
    have hB : (if c ≠ "account" then accounts.renameCol c "account" else accounts) =
        accounts.renameCol c "account" := by
      by_cases hca : c = "account"
      · rw [if_neg (by simpa using hca), hca, renameCol_self]
      · rw [if_pos hca]
    rw [hB]
    have hfresh : "account" ∉ accounts.cols ∨ "account" = c := by
      by_cases hca : c = "account"
      · exact Or.inr hca.symm
      · exact Or.inl (head_alias_absent hA hca)
    have h2 : "username" ∉ accounts.cols :=
      find_first_column_none hU "username" (by decide)
    have hunm : "username" ∉ (accounts.renameCol c "account").cols :=
      not_mem_renameCol c h2 (by decide)
    refine ⟨rfl, by simp [Frame.renameCol], ?_, ?_, ?_, by simp [hunm]⟩
    · intro r
      exact cellAt_renameCol_target accounts c "account" hfresh r
    · intro r
      exact cellAt_of_not_mem hunm r
    · exact iff_of_true (mem_renameCol_target hcmem "account") (by simp)
  · -- both aliases resolve
    obtain ⟨hcmem, hcal⟩ := find_first_column_mem hA
    obtain ⟨hc'mem, hc'al⟩ := find_first_column_mem hU
    have hcc' : c ≠ c' := fun h => hdisj c hcal (h ▸ hc'al)
    have hcusr : c ≠ "username" := fun h => husrA (h ▸ hcal)
    have hc'acc : c' ≠ "account" := fun h => haccU (h ▸ hc'al)
    have hBA : (if c ≠ "account" then accounts.renameCol c "account" else accounts) =
        accounts.renameCol c "account" := by
      by_cases hca : c = "account"
      · rw [if_neg (by simpa using hca), hca, renameCol_self]
      · rw [if_pos hca]
    rw [hBA]
    have hBU : (if c' ≠ "username" then (accounts.renameCol c "account").renameCol c' "username"
          else accounts.renameCol c "account") =
        (accounts.renameCol c "account").renameCol c' "username" := by
      by_cases hcu : c' = "username"
      · rw [if_neg (by simpa using hcu), hcu, renameCol_self]
      · rw [if_pos hcu]
    rw [hBU]
    have hfreshA : "account" ∉ accounts.cols ∨ "account" = c := by
      by_cases hca : c = "account"
      · exact Or.inr hca.symm
      · exact Or.inl (head_alias_absent hA hca)
    have hc'B1 : c' ∈ (accounts.renameCol c "account").cols :=
      mem_renameCol_of_ne hc'mem (Ne.symm hcc') "account"
    have hfreshU : "username" ∉ (accounts.renameCol c "account").cols ∨ "username" = c' := by
      by_cases hcu : c' = "username"
      · exact Or.inr hcu.symm
      · refine Or.inl (not_mem_renameCol c ?_ (by decide))
        exact head_alias_absent hU hcu
    refine ⟨rfl, by simp [Frame.renameCol], ?_, ?_, ?_, ?_⟩
    · intro r
      rw [cellAt_renameCol_other _ c' "username" "account" hc'acc.symm (by decide) r]
      exact cellAt_renameCol_target accounts c "account" hfreshA r
    · intro r
      rw [cellAt_renameCol_target _ c' "username" hfreshU r]
      exact cellAt_renameCol_other accounts c "account" c' (Ne.symm hcc') hc'acc r
    · exact iff_of_true
        (mem_renameCol_of_ne (mem_renameCol_target hcmem "account") (Ne.symm hc'acc) "username")
        (by simp)
    · exact iff_of_true (mem_renameCol_target hc'B1 "username") (by simp)

/-- Reading an uninvolved column through a widening by one fresh column. -/
theorem cellAt_widen {cols : List String} {c d : String} (hd : d ≠ c)
    (r : List Value) (v : Value) (hr : r.length = cols.length) :
    cellAt (cols ++ [c]) (r ++ [v]) d = cellAt cols r d := by
  rcases h : colIdx cols d with _ | i
  · have hnd : d ∉ cols := colIdx_eq_none_iff.mp h
    have hnd' : d ∉ cols ++ [c] := by simp [hnd, hd]
    rw [cellAt_of_not_mem hnd', cellAt, h]
  · rw [cellAt, colIdx_append_left h, cellAt, h]
    exact getD_append_lt (by rw [hr]; exact colIdx_lt h) v Value.null

/-- Appending an all-null column: the explicit shape of setCol. -/
theorem setColNull_spec (g : Frame) (c : String) (hnm : c ∉ g.cols) :
    (g.setCol c (g.rows.map (fun _ => Value.null))).cols = g.cols ++ [c]
    ∧ (g.setCol c (g.rows.map (fun _ => Value.null))).rows =
        g.rows.map (fun r => r ++ [Value.null]) := by
  have h := colIdx_eq_none_iff.mpr hnm
  constructor
  · simp only [Frame.setCol, h]
  · simp only [Frame.setCol, h]
    exact zip_map_self g.rows _ _


/-- One defaulting step (df[c] = None when c is absent): rows transform by a
per-row map, c is present afterwards, old columns and all reads survive. -/
theorem defaultStep_spec (g : Frame) (c : String) (hWF : g.WF) :
    ∃ ψ : List Value → List Value,
      (if g.cols.contains c then g
        else g.setCol c (g.rows.map (fun _ => Value.null))).rows = g.rows.map ψ
      ∧ (if g.cols.contains c then g
        else g.setCol c (g.rows.map (fun _ => Value.null))).WF
      ∧ c ∈ (if g.cols.contains c then g
        else g.setCol c (g.rows.map (fun _ => Value.null))).cols
      ∧ (∀ d ∈ g.cols, d ∈ (if g.cols.contains c then g
        else g.setCol c (g.rows.map (fun _ => Value.null))).cols)
      ∧ (∀ e r, r ∈ g.rows →
          cellAt (if g.cols.contains c then g
            else g.setCol c (g.rows.map (fun _ => Value.null))).cols (ψ r) e
          = cellAt g.cols r e) := by
  by_cases hc : c ∈ g.cols
  · have hcc : g.cols.contains c = true := contains_iff_mem.mpr hc
    rw [if_pos hcc]
    exact ⟨id, by simp, hWF, hc, fun d hd => hd, fun e r hr => rfl⟩
  · rw [if_neg (fun h => hc (contains_iff_mem.mp h))]
    obtain ⟨hcols, hrows⟩ := setColNull_spec g c hc
    refine ⟨fun r => r ++ [Value.null], hrows, ?_, ?_, ?_, ?_⟩
    · intro r hr
      rw [hrows] at hr
      rcases List.mem_map.mp hr with ⟨r0, hr0, rfl⟩
      rw [hcols]
      simp [hWF r0 hr0]
    · rw [hcols]
      simp
    · intro d hd
      rw [hcols]
      simp [hd]
    · intro e r hr
      rw [hcols]
      by_cases hec : e = c
      · subst hec
        rw [cellAt_of_not_mem hc, cellAt, colIdx_append_self hc]
        have h1 : (r ++ [Value.null]).getD r.length Value.null = Value.null :=
          getD_append_self r Value.null Value.null
        rw [← hWF r hr] at *
        exact h1
      · exact cellAt_widen hec r Value.null (hWF r hr)

/-- The defaulting step of the roster: rows transform by a per-row map,
account is present afterwards, rectangularity holds, reads are preserved. -/
theorem rosterDefaulted_spec (g : Frame) (hWF : g.WF) :
    ∃ ψ : List Value → List Value,
      (rosterDefaulted g).rows = g.rows.map ψ
      ∧ (rosterDefaulted g).WF
      ∧ "account" ∈ (rosterDefaulted g).cols
      ∧ (∀ e r, r ∈ g.rows →
          cellAt (rosterDefaulted g).cols (ψ r) e = cellAt g.cols r e) := by
  obtain ⟨ψ1, h1rows, h1WF, h1mem, h1sup, h1read⟩ := defaultStep_spec g "account" hWF
  set g1 := if g.cols.contains "account" then g
    else g.setCol "account" (g.rows.map (fun _ => Value.null)) with hg1
  obtain ⟨ψ2, h2rows, h2WF, h2mem, h2sup, h2read⟩ := defaultStep_spec g1 "username" h1WF
  have hdd : rosterDefaulted g =
      (if g1.cols.contains "username" then g1
        else g1.setCol "username" (g1.rows.map (fun _ => Value.null))) := rfl
  refine ⟨fun r => ψ2 (ψ1 r), ?_, ?_, ?_, ?_⟩
  · rw [hdd, h2rows, h1rows, List.map_map]
    rfl
  · rw [hdd]
    exact h2WF
  · rw [hdd]
    exact h2sup "account" h1mem
  · intro e r hr
    have hmem1 : ψ1 r ∈ g1.rows := by
      rw [h1rows]
      exact List.mem_map.mpr ⟨r, hr, rfl⟩
    rw [hdd, h2read e (ψ1 r) hmem1, h1read e r hr]

/-- The normalisation step: columns unchanged, rows transform by a per-row
map, the account cell becomes its normalised string, username reads are
preserved, and rectangularity holds. -/
theorem rosterNormalized_spec (g : Frame) (hWF : g.WF) (hacc : "account" ∈ g.cols) :
    ∃ ψ : List Value → List Value,
      (rosterNormalized g).cols = g.cols
      ∧ (rosterNormalized g).rows = g.rows.map ψ
      ∧ (rosterNormalized g).WF
      ∧ (∀ r ∈ g.rows, cellAt g.cols (ψ r) "account" =
          Value.str (normalizeAccount (cellAt g.cols r "account")))
      ∧ (∀ r ∈ g.rows, cellAt g.cols (ψ r) "username" = cellAt g.cols r "username") := by
  obtain ⟨i, hi⟩ := colIdx_isSome_of_mem hacc
  have hilt : i < g.cols.length := colIdx_lt hi
  refine ⟨fun r => r.set i (Value.str (normalizeAccount (cellAt g.cols r "account"))),
    ?_, ?_, ?_, ?_, ?_⟩
  · simp only [rosterNormalized, Frame.setCol, hi]
  · simp only [rosterNormalized, Frame.setCol, hi]
    exact zip_map_self g.rows _ _
  · intro r hr
    simp only [rosterNormalized, Frame.setCol, hi] at hr ⊢
    rw [zip_map_self g.rows _ _] at hr
    rcases List.mem_map.mp hr with ⟨r0, hr0, rfl⟩
    simp [hWF r0 hr0]
  · intro r hr
    rw [cellAt, hi]
    dsimp only
    rw [getD_set_self (by rw [hWF r hr]; exact hilt)]
  · intro r hr
    rcases hu : colIdx g.cols "username" with _ | j
    · rw [cellAt, hu, cellAt, hu]
    · have hij : i ≠ j := colIdx_ne hi hu (by decide)
      rw [cellAt, hu, cellAt, hu]
      dsimp only
      rw [getD_set_ne hij]

/-- The full pre-filter roster pipeline (rename, default, normalise): a
per-row transformation whose account cell is the normalised roster identity
and whose username cell is the resolved username value. -/
theorem rosterPrepared_spec (accounts : Frame) (hWF : accounts.WF) :
    ∃ (g : Frame) (φ : List Value → List Value),
      g = rosterNormalized (rosterDefaulted (rosterRenamed accounts))
      ∧ g.rows = accounts.rows.map φ
      ∧ (∀ r ∈ accounts.rows, cellAt g.cols (φ r) "account" =
          Value.str (rosterIdentity accounts r))
      ∧ (∀ r ∈ accounts.rows, cellAt g.cols (φ r) "username" = usernameValue accounts r) := by
  obtain ⟨h1rows, h1len, h1acc, h1usr, _, _⟩ := rosterRenamed_spec accounts
  have h1WF : (rosterRenamed accounts).WF := by
    intro r hr
    rw [h1rows] at hr
    rw [h1len]
    exact hWF r hr
  obtain ⟨ψ2, h2rows, h2WF, h2mem, h2read⟩ := rosterDefaulted_spec (rosterRenamed accounts) h1WF
  obtain ⟨ψ3, h3cols, h3rows, h3WF, h3acc, h3usr⟩ :=
    rosterNormalized_spec (rosterDefaulted (rosterRenamed accounts)) h2WF h2mem
  refine ⟨_, fun r => ψ3 (ψ2 r), rfl, ?_, ?_, ?_⟩
  · rw [h3rows, h2rows, h1rows, List.map_map]
    rfl
  · intro r hr
    have hr1 : r ∈ (rosterRenamed accounts).rows := by rw [h1rows]; exact hr
    have hr2 : ψ2 r ∈ (rosterDefaulted (rosterRenamed accounts)).rows := by
      rw [h2rows]
      exact List.mem_map.mpr ⟨r, hr1, rfl⟩
    rw [h3cols, h3acc (ψ2 r) hr2, h2read "account" r hr1, h1acc r]
    unfold rosterIdentity
    rcases find_first_column accounts ACCOUNT_ALIASES with _ | c <;> rfl
  · intro r hr
    have hr1 : r ∈ (rosterRenamed accounts).rows := by rw [h1rows]; exact hr
    have hr2 : ψ2 r ∈ (rosterDefaulted (rosterRenamed accounts)).rows := by
      rw [h2rows]
      exact List.mem_map.mpr ⟨r, hr1, rfl⟩
    rw [h3cols, h3usr (ψ2 r) hr2, h2read "username" r hr1, h1usr r]

/-- The report seed: one two-cell row (normalised identity, username value)
per surviving roster record, in roster order. -/
theorem reportInit_spec (accounts : Frame) (hWF : accounts.WF) :
    reportInit accounts =
      ⟨["Account", "Username"],
       (survivingRows accounts).map
         (fun r => [Value.str (rosterIdentity accounts r), usernameValue accounts r])⟩ := by
  obtain ⟨g, φ, hg, hrows, hacc, husr⟩ := rosterPrepared_spec accounts hWF
  have hrb : rosterBase accounts = ⟨g.cols, g.rows.filter (keepAccount g.cols)⟩ := by
    rw [hg]
    rfl
  unfold reportInit
  rw [hrb]
  simp only [Frame.mk.injEq, true_and]
  rw [hrows, List.filter_map]
  have hpred : ∀ r ∈ accounts.rows, (keepAccount g.cols ∘ φ) r =
      !(strEndsWith (rosterIdentity accounts r) "@thinkcol.com") := by
    intro r hr
    simp only [Function.comp_apply]
    unfold keepAccount
    rw [hacc r hr]
  rw [List.filter_congr hpred]
  rw [List.map_map]
  unfold survivingRows
  apply List.map_congr_left
  intro r hr
  have hr' : r ∈ accounts.rows := (List.mem_filter.mp hr).1
  simp only [Function.comp_apply]
  rw [hacc r hr', husr r hr']

/- ---------- helper lemmas: the grouped-count merges ---------- -/

/-- count_usage_by_account is the grouped count of usageAccts. -/
theorem count_usage_eq (usage : Frame) (usage_types : List String) :
    count_usage_by_account usage usage_types =
      ⟨["account", "count"], groupCountRows (usageAccts usage usage_types)⟩ := by
  unfold count_usage_by_account usageAccts
  split
  · rfl
  · rcases find_first_column usage ACCOUNT_ALIASES with _ | ac <;>
      rcases find_first_column usage USAGE_TYPE_ALIASES with _ | tc <;> rfl

/-- count_askai_by_account is the grouped count of askaiAccts. -/
theorem count_askai_eq (askai : Frame) :
    count_askai_by_account askai =
      ⟨["account", "count"], groupCountRows (askaiAccts askai)⟩ := by
  unfold count_askai_by_account askaiAccts
  split
  · rfl
  · rcases find_first_column askai ACCOUNT_ALIASES with _ | ac <;> rfl

/-- Filtering keyed (account, count) rows by a key value: at most the unique
matching row survives. -/
theorem filter_keyRows (ks : List String) (cnt : String → Int) (k : Value) (hnd : ks.Nodup) :
    (ks.map (fun q => [Value.str q, Value.num (cnt q)])).filter
        (fun rr => decide (rr.getD 0 Value.null = k)) =
      (match k with
       | Value.str a => if a ∈ ks then [[Value.str a, Value.num (cnt a)]] else []
       | _ => []) := by
  induction ks with
  | nil => cases k <;> rfl
  | cons q qs ih =>
    rw [List.nodup_cons] at hnd
    obtain ⟨hq, hqs⟩ := hnd
    simp only [List.map_cons, List.filter_cons]
    cases k with
    | str a =>
      dsimp only
      by_cases hqa : q = a
      · subst hqa
        rw [if_pos (by simp), ih hqs]
        dsimp only
        rw [if_neg hq, if_pos (List.mem_cons_self q qs)]
      · rw [if_neg (by simp [hqa]), ih hqs]
        dsimp only
        by_cases ham : a ∈ qs
        · rw [if_pos ham, if_pos (List.mem_cons_of_mem q ham)]
        · rw [if_neg ham, if_neg (by simp [List.mem_cons, Ne.symm hqa, ham])]
    | num n =>
      rw [if_neg (by simp), ih hqs]
    | inst t =>
      rw [if_neg (by simp), ih hqs]
    | null =>
      rw [if_neg (by simp), ih hqs]

/-- Filtering the grouped count rows by a key value, in terms of countCell. -/
theorem filter_groupCountRows (accts : List String) (k : Value) :
    (groupCountRows accts).filter (fun rr => decide (rr.getD 0 Value.null = k)) =
      (match k with
       | Value.str a =>
         if 0 < accts.count a then [[Value.str a, Value.num (accts.count a : Int)]] else []
       | _ => []) := by
  unfold groupCountRows
  rw [filter_keyRows _ _ k (List.nodup_dedup _)]
  cases k with
  | str a =>
    dsimp only
    by_cases hmem : a ∈ (stableSort strLeB accts).dedup
    · rw [if_pos hmem,
        if_pos (List.count_pos_iff.mpr (mem_stableSort.mp (List.mem_dedup.mp hmem)))]
    · rw [if_neg hmem, if_neg ?_]
      intro hpos
      exact hmem (List.mem_dedup.mpr (mem_stableSort.mpr (List.count_pos_iff.mp hpos)))
  | num n => rfl
  | inst t => rfl
  | null => rfl

/-- Left-merging a report frame with a renamed grouped count frame appends
one column holding, per row, the count cell for that row's Account. -/
theorem mergeLeftOn_countFrame (rep : Frame) (m : String) (accts : List String)
    (hm : m ≠ "Account") :
    mergeLeftOn rep ⟨["Account", m], groupCountRows accts⟩ "Account" =
      ⟨rep.cols ++ [m],
       rep.rows.map (fun lr => lr ++ [countCell accts (cellAt rep.cols lr "Account")])⟩ := by
  have henum : (["Account", m] : List String).enum = [(0, "Account"), (1, m)] := rfl
  have hpay : (((⟨["Account", m], groupCountRows accts⟩ : Frame).cols.enum.filter
      (fun p => decide (p.2 ≠ "Account"))).map (fun p => p.1)) = [1] := by
    show ((["Account", m] : List String).enum.filter
      (fun p => decide (p.2 ≠ "Account"))).map (fun p => p.1) = [1]
    rw [henum]
    simp [hm]
  have hcols : ((⟨["Account", m], groupCountRows accts⟩ : Frame).cols.filter
      (fun c => decide (c ≠ "Account"))) = [m] := by
    show (["Account", m] : List String).filter (fun c => decide (c ≠ "Account")) = [m]
    simp [hm]
  unfold mergeLeftOn
  rw [hpay, hcols]
  have hrow : ∀ lr : List Value,
      (let k := cellAt rep.cols lr "Account";
       let ms := (groupCountRows accts).filter
         (fun rr => decide (cellAt (⟨["Account", m], groupCountRows accts⟩ : Frame).cols
           rr "Account" = k));
       if ms.isEmpty then [lr ++ ([1] : List Nat).map (fun _ => Value.null)]
       else ms.map (fun rr => lr ++ ([1] : List Nat).map (fun i => rr.getD i Value.null)))
      = [lr ++ [countCell accts (cellAt rep.cols lr "Account")]] := by
    intro lr
    have hread : ∀ rr : List Value,
        cellAt (⟨["Account", m], groupCountRows accts⟩ : Frame).cols rr "Account" =
          rr.getD 0 Value.null := by
      intro rr
      exact cellAt_head [m] rr "Account"
    simp only [hread]
    rw [filter_groupCountRows accts (cellAt rep.cols lr "Account")]
    rcases hv : cellAt rep.cols lr "Account" with n | a | t | _
    · rfl
    · dsimp only
      by_cases hpos : 0 < accts.count a <;> simp [countCell, hpos]
    · rfl
    · rfl
  dsimp only
  congr 1
  exact (List.flatMap_congr (fun lr _ => hrow lr)).trans (flatMap_singleton_eq_map _ _)

/-- Reading position zero ignores an appended tail on a nonempty row. -/
theorem getD_zero_append {lr : List Value} (h : lr ≠ []) (l : List Value) (d : Value) :
    (lr ++ l).getD 0 d = lr.getD 0 d := by
  cases lr with
  | nil => exact absurd rfl h
  | cons x xs => rfl

/-- The metric loop: folding addMetric over a metric list appends, per
metric, one column holding that metric's count cell for each row's Account
(the head column). -/
theorem foldl_addMetric_spec (usage : Frame) :
    ∀ (ms : List (String × List String)) (rep : Frame) (cs : List String),
      rep.cols = "Account" :: cs →
      (∀ p ∈ ms, p.1 ≠ "Account") →
      (∀ r ∈ rep.rows, r ≠ []) →
      ms.foldl (addMetric usage) rep =
        ⟨rep.cols ++ ms.map (fun p => p.1),
         rep.rows.map (fun r =>
           r ++ ms.map (fun p => countCell (usageAccts usage p.2) (r.getD 0 Value.null)))⟩ := by
  intro ms
  induction ms with
  | nil =>
    intro rep cs hcols hms hne
    cases rep
    simp
  | cons p ps ih =>
    intro rep cs hcols hms hne
    rw [List.foldl_cons]
    have hmA : p.1 ≠ "Account" := hms p (List.mem_cons_self p ps)
    have hren : Frame.renameCol
          (Frame.renameCol ⟨["account", "count"], groupCountRows (usageAccts usage p.2)⟩
            "account" "Account")
          "count" p.1 =
        ⟨["Account", p.1], groupCountRows (usageAccts usage p.2)⟩ := by
      simp [Frame.renameCol]
    have hadd : addMetric usage rep p =
        ⟨rep.cols ++ [p.1],
         rep.rows.map (fun lr => lr ++ [countCell (usageAccts usage p.2)
           (cellAt rep.cols lr "Account")])⟩ := by
      unfold addMetric
      rw [count_usage_eq, hren]
      exact mergeLeftOn_countFrame rep p.1 (usageAccts usage p.2) hmA
    rw [hadd]
    have hcols' : (rep.cols ++ [p.1] : List String) = "Account" :: (cs ++ [p.1]) := by
      rw [hcols]
      rfl
    have hne' : ∀ r ∈ rep.rows.map (fun lr => lr ++ [countCell (usageAccts usage p.2)
        (cellAt rep.cols lr "Account")]), r ≠ [] := by
      intro r hr
      rcases List.mem_map.mp hr with ⟨r0, _, rfl⟩
      simp
    have hih := ih ⟨rep.cols ++ [p.1],
        rep.rows.map (fun lr => lr ++ [countCell (usageAccts usage p.2)
          (cellAt rep.cols lr "Account")])⟩
      (cs ++ [p.1]) hcols' (fun q hq => hms q (List.mem_cons_of_mem p hq)) hne'
    rw [hih]
    congr 1
    · rw [List.append_assoc]
      rfl
    · rw [List.map_map]
      apply List.map_congr_left
      intro r hr
      simp only [Function.comp_apply]
      have hAcc : cellAt rep.cols r "Account" = r.getD 0 Value.null := by
        rw [hcols]
        exact cellAt_head cs r "Account"
      rw [getD_zero_append (hne r hr)]
      rw [hAcc, List.append_assoc]
      rfl

/-- A found column name is a member of the columns. -/
theorem mem_of_colIdx {cols : List String} {c : String} {i : Nat}
    (h : colIdx cols c = some i) : c ∈ cols := by
  by_contra hc
  rw [colIdx_eq_none_iff.mpr hc] at h
  exact Option.noConfusion h

/-- One fill step on a frame with the report's columns: set the column at its
index to fillna(0).astype(int) of itself. -/
theorem fillColumn_spec (rows : List (List Value)) (c : String) (i : Nat)
    (hc : colIdx REPORT_COLUMNS c = some i) :
    fillColumn ⟨REPORT_COLUMNS, rows⟩ c =
      ⟨REPORT_COLUMNS, rows.map (fun r =>
        r.set i (Value.num (r.getD i Value.null).fillnaInt))⟩ := by
  unfold fillColumn
  rw [if_pos (contains_iff_mem.mpr (mem_of_colIdx hc))]
  show Frame.setCol _ _ _ = _
  simp only [Frame.setCol, hc]
  congr 1
  rw [zip_map_self]
  apply List.map_congr_left
  intro r _
  simp only [cellAt, hc]

/-- The fill loop on a frame with the report's columns, column by column. -/
theorem foldl_fillColumn_spec (rows : List (List Value)) :
    COLUMNS_TO_FILL.foldl fillColumn ⟨REPORT_COLUMNS, rows⟩ =
      ⟨REPORT_COLUMNS,
       ((((((((rows.map
         (fun r => r.set 2 (Value.num (r.getD 2 Value.null).fillnaInt))).map
         (fun r => r.set 3 (Value.num (r.getD 3 Value.null).fillnaInt))).map
         (fun r => r.set 4 (Value.num (r.getD 4 Value.null).fillnaInt))).map
         (fun r => r.set 5 (Value.num (r.getD 5 Value.null).fillnaInt))).map
         (fun r => r.set 6 (Value.num (r.getD 6 Value.null).fillnaInt))).map
         (fun r => r.set 7 (Value.num (r.getD 7 Value.null).fillnaInt))).map
         (fun r => r.set 8 (Value.num (r.getD 8 Value.null).fillnaInt))).map
         (fun r => r.set 9 (Value.num (r.getD 9 Value.null).fillnaInt)))⟩ := by
  show List.foldl fillColumn _ ["Logins", "Uploads", "Generated Transcripts",
    "Regenerated Transcripts", "Initial Summaries", "Regenerated Summaries",
    "Regenerated Notes", "AskAI Questions"] = _
  rw [List.foldl_cons, fillColumn_spec _ "Logins" 2 rfl]
  rw [List.foldl_cons, fillColumn_spec _ "Uploads" 3 rfl]
  rw [List.foldl_cons, fillColumn_spec _ "Generated Transcripts" 4 rfl]
  rw [List.foldl_cons, fillColumn_spec _ "Regenerated Transcripts" 5 rfl]
  rw [List.foldl_cons, fillColumn_spec _ "Initial Summaries" 6 rfl]
  rw [List.foldl_cons, fillColumn_spec _ "Regenerated Summaries" 7 rfl]
  rw [List.foldl_cons, fillColumn_spec _ "Regenerated Notes" 8 rfl]
  rw [List.foldl_cons, fillColumn_spec _ "AskAI Questions" 9 rfl]
  rw [List.foldl_nil]

/-- fillna(0).astype(int) of a count cell is exactly the count. -/
theorem fillnaInt_countCell (accts : List String) (a : String) :
    (countCell accts (Value.str a)).fillnaInt = (accts.count a : Int) := by
  unfold countCell
  dsimp only
  by_cases h : 0 < accts.count a
  · rw [if_pos h]
    rfl
  · rw [if_neg h]
    have h0 : accts.count a = 0 := Nat.eq_zero_of_not_pos h
    simp [Value.fillnaInt, h0]

/-- The pre-sort report: one closed-form row (identity, username, the eight
filled integer counts) per surviving roster record, in roster order. -/
theorem reportFilled_spec (accounts usage askai : Frame) (hWF : accounts.WF) :
    reportFilled accounts usage askai =
      ⟨REPORT_COLUMNS, (survivingRows accounts).map (finalRow accounts usage askai)⟩ := by
  unfold reportFilled
  rw [reportInit_spec accounts hWF]
  have h1 : METRICS_USAGE_TYPE_MAP.foldl (addMetric usage)
      ⟨["Account", "Username"], (survivingRows accounts).map
        (fun r => [Value.str (rosterIdentity accounts r), usernameValue accounts r])⟩ =
      ⟨["Account", "Username"] ++ METRICS_USAGE_TYPE_MAP.map (fun p => p.1),
       ((survivingRows accounts).map
        (fun r => [Value.str (rosterIdentity accounts r), usernameValue accounts r])).map
         (fun r => r ++ METRICS_USAGE_TYPE_MAP.map
           (fun p => countCell (usageAccts usage p.2) (r.getD 0 Value.null)))⟩ := by
    apply foldl_addMetric_spec usage METRICS_USAGE_TYPE_MAP _ ["Username"] rfl (by decide)
    intro r hr
    rcases List.mem_map.mp hr with ⟨r0, _, rfl⟩
    simp
  rw [h1]
  have hren2 : Frame.renameCol
      (Frame.renameCol ⟨["account", "count"], groupCountRows (askaiAccts askai)⟩
        "account" "Account")
      "count" "AskAI Questions" =
      ⟨["Account", "AskAI Questions"], groupCountRows (askaiAccts askai)⟩ := by
    simp [Frame.renameCol]
  rw [count_askai_eq, hren2]
  dsimp only
  rw [mergeLeftOn_countFrame _ "AskAI Questions" (askaiAccts askai) (by decide)]
  rw [List.map_map]
  show COLUMNS_TO_FILL.foldl fillColumn ⟨REPORT_COLUMNS, _⟩ = _
  rw [foldl_fillColumn_spec]
  simp only [List.map_map, Frame.mk.injEq, true_and]
  apply List.map_congr_left
  intro r _
  simp only [Function.comp_apply]
  show _ = finalRow accounts usage askai r
  simp only [METRICS_USAGE_TYPE_MAP, List.map_cons, List.map_nil, List.cons_append,
    List.nil_append, List.append_nil]
  simp only [cellAt_head, List.getD_cons_zero, List.getD_cons_succ, List.set]
  unfold finalRow
  simp only [fillnaInt_countCell]

/- ---------- helper lemmas: the sort comparisons ---------- -/

/-- Characters with equal code points are equal. -/
theorem char_eq_of_toNat_eq {a b : Char} (h : a.toNat = b.toNat) : a = b :=
  Char.ext (UInt32.ext h)

/-- Code-point comparison of character lists is total. -/
theorem charListLe_total : ∀ as bs : List Char,
    charListLe as bs = true ∨ charListLe bs as = true := by
  intro as
  induction as with
  | nil =>
    intro bs
    left
    rfl
  | cons a as ih =>
    intro bs
    cases bs with
    | nil =>
      right
      rfl
    | cons b bs =>
      simp only [charListLe]
      rcases Nat.lt_trichotomy a.toNat b.toNat with h | h | h
      · left
        rw [if_pos h]
      · rw [if_neg (by omega), if_neg (by omega), if_neg (by omega), if_neg (by omega)]
        exact ih bs
      · right
        rw [if_pos h]

/-- Code-point comparison of character lists is transitive. -/
theorem charListLe_trans : ∀ as bs cs : List Char,
    charListLe as bs = true → charListLe bs cs = true → charListLe as cs = true := by
  intro as
  induction as with
  | nil =>
    intro bs cs _ _
    rfl
  | cons a as ih =>
    intro bs cs h1 h2
    cases bs with
    | nil => simp [charListLe] at h1
    | cons b bs =>
      cases cs with
      | nil => simp [charListLe] at h2
      | cons c cs =>
        simp only [charListLe] at h1 h2 ⊢
        rcases Nat.lt_trichotomy a.toNat b.toNat with hab | hab | hab <;>
          rcases Nat.lt_trichotomy b.toNat c.toNat with hbc | hbc | hbc
        · rw [if_pos (by omega)]
        · rw [if_pos (by omega)]
        · rw [if_neg (by omega), if_pos hbc] at h2
          simp at h2
        · rw [if_pos (by omega)]
        · rw [if_neg (by omega), if_neg (by omega)] at h1
          rw [if_neg (by omega), if_neg (by omega)] at h2
          rw [if_neg (by omega), if_neg (by omega)]
          exact ih bs cs h1 h2
        · rw [if_neg (by omega), if_pos hbc] at h2
          simp at h2
        · rw [if_neg (by omega), if_pos hab] at h1
          simp at h1
        · rw [if_neg (by omega), if_pos hab] at h1
          simp at h1
        · rw [if_neg (by omega), if_pos hab] at h1
          simp at h1

/-- Code-point comparison of character lists is antisymmetric. -/
theorem charListLe_antisymm : ∀ as bs : List Char,
    charListLe as bs = true → charListLe bs as = true → as = bs := by
  intro as
  induction as with
  | nil =>
    intro bs _ h2
    cases bs with
    | nil => rfl
    | cons b bs => simp [charListLe] at h2
  | cons a as ih =>
    intro bs h1 h2
    cases bs with
    | nil => simp [charListLe] at h1
    | cons b bs =>
      simp only [charListLe] at h1 h2
      rcases Nat.lt_trichotomy a.toNat b.toNat with hab | hab | hab
      · rw [if_neg (by omega), if_pos hab] at h2
        simp at h2
      · rw [if_neg (by omega), if_neg (by omega)] at h1 h2
        rw [char_eq_of_toNat_eq hab, ih bs h1 h2]
      · rw [if_pos hab, if_neg (by omega)] at h1
        simp at h1

/-- String comparison is total. -/
theorem strLeB_total (a b : String) : strLeB a b = true ∨ strLeB b a = true :=
  charListLe_total a.data b.data

/-- String comparison is transitive. -/
theorem strLeB_trans (a b c : String) (h1 : strLeB a b = true) (h2 : strLeB b c = true) :
    strLeB a c = true :=
  charListLe_trans a.data b.data c.data h1 h2

/-- String comparison is antisymmetric. -/
theorem strLeB_antisymm (a b : String) (h1 : strLeB a b = true) (h2 : strLeB b a = true) :
    a = b :=
  String.ext (charListLe_antisymm a.data b.data h1 h2)

/-- The cell comparison is total. -/
theorem valLe_total (a b : Value) : valLe a b = true ∨ valLe b a = true := by
  cases a <;> cases b <;> simp [valLe, decide_eq_true_eq] <;>
    first
      | omega
      | exact strLeB_total _ _

/-- The cell comparison is transitive. -/
theorem valLe_trans (a b c : Value) (h1 : valLe a b = true) (h2 : valLe b c = true) :
    valLe a c = true := by
  cases a <;> cases b <;> cases c <;>
    simp_all [valLe, decide_eq_true_eq] <;>
    first
      | omega
      | exact strLeB_trans _ _ _ h1 h2

/-- The cell comparison is antisymmetric. -/
theorem valLe_antisymm (a b : Value) (h1 : valLe a b = true) (h2 : valLe b a = true) :
    a = b := by
  cases a <;> cases b <;> simp_all [valLe, decide_eq_true_eq] <;>
    first
      | omega
      | exact strLeB_antisymm _ _ h1 h2

/-- The Username-then-Account row comparison is total. -/
theorem usernameAccountLe_total (cols : List String) (r1 r2 : List Value) :
    usernameAccountLe cols r1 r2 = true ∨ usernameAccountLe cols r2 r1 = true := by
  unfold usernameAccountLe
  by_cases h : cellAt cols r1 "Username" = cellAt cols r2 "Username"
  · rw [if_pos h, if_pos h.symm]
    exact valLe_total _ _
  · rw [if_neg h, if_neg (fun h' => h h'.symm)]
    exact valLe_total _ _

/-- The Username-then-Account row comparison is transitive. -/
theorem usernameAccountLe_trans (cols : List String) (r1 r2 r3 : List Value)
    (h1 : usernameAccountLe cols r1 r2 = true)
    (h2 : usernameAccountLe cols r2 r3 = true) :
    usernameAccountLe cols r1 r3 = true := by
  unfold usernameAccountLe at h1 h2 ⊢
  by_cases h12 : cellAt cols r1 "Username" = cellAt cols r2 "Username" <;>
    by_cases h23 : cellAt cols r2 "Username" = cellAt cols r3 "Username"
  · rw [if_pos h12] at h1
    rw [if_pos h23] at h2
    rw [if_pos (h12.trans h23)]
    exact valLe_trans _ _ _ h1 h2
  · rw [if_neg h23] at h2
    rw [if_neg (fun h13 => h23 (h12.symm.trans h13))]
    rw [h12]
    exact h2
  · rw [if_neg h12] at h1
    rw [if_neg (fun h13 => h12 (h13.trans h23.symm))]
    rw [← h23]
    exact h1
  · rw [if_neg h12] at h1
    rw [if_neg h23] at h2
    by_cases h13 : cellAt cols r1 "Username" = cellAt cols r3 "Username"
    · exfalso
      apply h12
      apply valLe_antisymm _ _ h1
      rw [← h13] at h2
      exact h2
    · rw [if_neg h13]
      exact valLe_trans _ _ _ h1 h2

/-- The Account row comparison is total. -/
theorem accountLe_total (cols : List String) (r1 r2 : List Value) :
    accountLe cols r1 r2 = true ∨ accountLe cols r2 r1 = true :=
  valLe_total _ _

/-- The Account row comparison is transitive. -/
theorem accountLe_trans (cols : List String) (r1 r2 r3 : List Value)
    (h1 : accountLe cols r1 r2 = true) (h2 : accountLe cols r2 r3 = true) :
    accountLe cols r1 r3 = true :=
  valLe_trans _ _ _ h1 h2

/-- Selecting the report's own columns from a ten-cell row is the identity. -/
theorem select_id10 (v0 v1 v2 v3 v4 v5 v6 v7 v8 v9 : Value) :
    REPORT_COLUMNS.map (fun c => cellAt REPORT_COLUMNS [v0, v1, v2, v3, v4, v5, v6, v7, v8, v9] c)
      = [v0, v1, v2, v3, v4, v5, v6, v7, v8, v9] := rfl

/-- The built report: the sorted (by Username then Account, stably) closed
form of the pre-sort report. -/
theorem build_eq (accounts usage askai : Frame) (hWF : accounts.WF) :
    build_report_dataframe accounts usage askai =
      ⟨REPORT_COLUMNS,
       stableSort (usernameAccountLe REPORT_COLUMNS)
         ((survivingRows accounts).map (finalRow accounts usage askai))⟩ := by
  unfold build_report_dataframe
  by_cases hemp : accounts.rows.isEmpty = true
  · rw [if_pos hemp]
    have hrows : accounts.rows = [] := by simpa using hemp
    have hsurv : survivingRows accounts = [] := by
      unfold survivingRows
      rw [hrows]
      rfl
    rw [hsurv]
    rfl
  · rw [if_neg hemp]
    rw [reportFilled_spec accounts usage askai hWF]
    unfold sortReport
    rw [if_pos (show REPORT_COLUMNS.contains "Username" = true from rfl)]
    unfold selectCols
    simp only [Frame.mk.injEq, true_and]
    have hid : ∀ r ∈ stableSort (usernameAccountLe REPORT_COLUMNS)
        ((survivingRows accounts).map (finalRow accounts usage askai)),
        REPORT_COLUMNS.map (fun c => cellAt REPORT_COLUMNS r c) = r := by
      intro r hr
      rcases List.mem_map.mp (mem_stableSort.mp hr) with ⟨r0, _, rfl⟩
      exact select_id10 _ _ _ _ _ _ _ _ _ _
    calc (stableSort (usernameAccountLe REPORT_COLUMNS)
          ((survivingRows accounts).map (finalRow accounts usage askai))).map
            (fun r => REPORT_COLUMNS.map (fun c => cellAt REPORT_COLUMNS r c))
        = (stableSort (usernameAccountLe REPORT_COLUMNS)
          ((survivingRows accounts).map (finalRow accounts usage askai))).map id :=
          List.map_congr_left hid
      _ = _ := List.map_id _

/- ---------- C3: the output account set is the surviving roster ---------- -/

/-- C3: a (normalised) account string appears in the report exactly when some
roster record normalises to it and it does not end with the internal domain
suffix; since identities are lower-cased before the check, the suffix match
is case-insensitive on the raw roster value.  In particular an excluded
roster account never appears even with events, and an account present only
in events never appears. -/
theorem C3_account_set (accounts usage askai : Frame) (hWF : accounts.WF) (s : String) :
    (∃ r ∈ (build_report_dataframe accounts usage askai).rows,
        cellAt REPORT_COLUMNS r "Account" = Value.str s) ↔
      (∃ r0 ∈ accounts.rows, rosterIdentity accounts r0 = s
        ∧ strEndsWith s "@thinkcol.com" = false) := by
  rw [build_eq accounts usage askai hWF]
  constructor
  · rintro ⟨r, hr, hcell⟩
    rcases List.mem_map.mp (mem_stableSort.mp hr) with ⟨r0, hr0, rfl⟩
    have hr0m : r0 ∈ accounts.rows := (List.mem_filter.mp hr0).1
    have hkeep := (List.mem_filter.mp hr0).2
    have hread : cellAt REPORT_COLUMNS (finalRow accounts usage askai r0) "Account" =
        Value.str (rosterIdentity accounts r0) := rfl
    rw [hread] at hcell
    have hid : rosterIdentity accounts r0 = s := by injection hcell
    refine ⟨r0, hr0m, hid, ?_⟩
    rw [← hid]
    simpa using hkeep
  · rintro ⟨r0, hr0, hid, hend⟩
    refine ⟨finalRow accounts usage askai r0, ?_, ?_⟩
    · apply mem_stableSort.mpr
      apply List.mem_map.mpr
      refine ⟨r0, ?_, rfl⟩
      apply List.mem_filter.mpr
      refine ⟨hr0, ?_⟩
      rw [hid]
      simp [hend]
    · show Value.str (rosterIdentity accounts r0) = Value.str s
      rw [hid]

/-- Witness for C3: the normalised external account appears in the report
built from w2A/w2U/w2K, via the characterisation. -/
theorem C3_account_set_witness :
    ∃ r ∈ (build_report_dataframe w2A w2U w2K).rows,
      cellAt REPORT_COLUMNS r "Account" = Value.str "a@x.com" :=
  (C3_account_set w2A w2U w2K (by decide) "a@x.com").mpr (by decide)

/- ---------- C2: one row per surviving account, metrics filled ---------- -/

/-- C2: the report has exactly one row per surviving roster record (counted
per account string), every metric column holds a non-negative integer, and an
account with no matching events in a metric's source gets exactly 0 — also
when an event source is empty or malformed, since the quantification is over
all usage/askai frames. -/
theorem C2_report_rows (accounts usage askai : Frame) (hWF : accounts.WF) :
    ((build_report_dataframe accounts usage askai).rows.length =
        (survivingRows accounts).length)
    ∧ (∀ s : String,
        (build_report_dataframe accounts usage askai).rows.countP
            (fun r => decide (cellAt REPORT_COLUMNS r "Account" = Value.str s)) =
          accounts.rows.countP
            (fun r => decide (rosterIdentity accounts r = s
              ∧ strEndsWith (rosterIdentity accounts r) "@thinkcol.com" = false)))
    ∧ (∀ r ∈ (build_report_dataframe accounts usage askai).rows, ∀ c ∈ COLUMNS_TO_FILL,
        ∃ n : Nat, cellAt REPORT_COLUMNS r c = Value.num (n : Int))
    ∧ (∀ r ∈ (build_report_dataframe accounts usage askai).rows,
        ∀ p ∈ METRICS_USAGE_TYPE_MAP, ∀ s : String,
        cellAt REPORT_COLUMNS r "Account" = Value.str s →
        (usageAccts usage p.2).count s = 0 →
        cellAt REPORT_COLUMNS r p.1 = Value.num 0)
    ∧ (∀ r ∈ (build_report_dataframe accounts usage askai).rows, ∀ s : String,
        cellAt REPORT_COLUMNS r "Account" = Value.str s →
        (askaiAccts askai).count s = 0 →
        cellAt REPORT_COLUMNS r "AskAI Questions" = Value.num 0) := by
  have hb := build_eq accounts usage askai hWF
  refine ⟨?_, ?_, ?_, ?_, ?_⟩
  · rw [hb]
    show (stableSort _ _).length = _
    rw [length_stableSort, List.length_map]
  · intro s
    rw [hb]
    show (stableSort _ _).countP _ = _
    rw [(perm_stableSort _ _).countP_eq, List.countP_map]
    unfold survivingRows
    rw [List.countP_filter]
    apply List.countP_congr
    intro r _
    simp only [Function.comp_apply]
    have hread : cellAt REPORT_COLUMNS (finalRow accounts usage askai r) "Account" =
        Value.str (rosterIdentity accounts r) := rfl
    rw [hread]
    by_cases hid : rosterIdentity accounts r = s
    · subst hid
      by_cases hend : strEndsWith (rosterIdentity accounts r) "@thinkcol.com" = false
      · simp [hend]
      · simp only [Bool.not_eq_false] at hend
        simp [hend]
    · constructor
      · intro h
        exfalso
        simp only [Bool.and_eq_true, decide_eq_true_eq, Value.str.injEq] at h
        exact hid h.1
      · intro h
        exfalso
        simp only [decide_eq_true_eq] at h
        exact hid h.1
  · intro r hr c hc
    rw [hb] at hr
    rcases List.mem_map.mp (mem_stableSort.mp hr) with ⟨r0, _, rfl⟩
    fin_cases hc
    · exact ⟨_, rfl⟩
    · exact ⟨_, rfl⟩
    · exact ⟨_, rfl⟩
    · exact ⟨_, rfl⟩
    · exact ⟨_, rfl⟩
    · exact ⟨_, rfl⟩
    · exact ⟨_, rfl⟩
    · exact ⟨_, rfl⟩
  · intro r hr p hp s hcell h0
    rw [hb] at hr
    rcases List.mem_map.mp (mem_stableSort.mp hr) with ⟨r0, _, rfl⟩
    have hread : cellAt REPORT_COLUMNS (finalRow accounts usage askai r0) "Account" =
        Value.str (rosterIdentity accounts r0) := rfl
    rw [hread] at hcell
    have hid : rosterIdentity accounts r0 = s := by injection hcell
    fin_cases hp <;>
      · show Value.num _ = Value.num 0
        rw [← hid] at h0
        rw [h0]
        rfl
  · intro r hr s hcell h0
    rw [hb] at hr
    rcases List.mem_map.mp (mem_stableSort.mp hr) with ⟨r0, _, rfl⟩
    have hread : cellAt REPORT_COLUMNS (finalRow accounts usage askai r0) "Account" =
        Value.str (rosterIdentity accounts r0) := rfl
    rw [hread] at hcell
    have hid : rosterIdentity accounts r0 = s := by injection hcell
    show Value.num _ = Value.num 0
    rw [← hid] at h0
    rw [h0]
    rfl

/-- Witness for C2: the w2A roster has one surviving record, so the report
has exactly one row. -/
theorem C2_report_rows_witness :
    (build_report_dataframe w2A w2U w2K).rows.length = 1 := by
  rw [(C2_report_rows w2A w2U w2K (by decide)).1]
  decide

/- ---------- C5: the presentation sort ---------- -/

/-- C5: the report rows are the stable sort of the pre-sort report by
Username ascending (nulls last, as valLe orders null greatest) with Account
as tie-break; sortedness holds pairwise along the output; and when no
username alias resolves, the Username column is entirely null and the order
equals the stable Account-only sort, with no error (the function is total). -/
theorem C5_sort_order (accounts usage askai : Frame) (hWF : accounts.WF) :
    ((build_report_dataframe accounts usage askai).rows =
        stableSort (usernameAccountLe REPORT_COLUMNS)
          (reportFilled accounts usage askai).rows)
    ∧ List.Pairwise (fun r1 r2 => usernameAccountLe REPORT_COLUMNS r1 r2 = true)
        (build_report_dataframe accounts usage askai).rows
    ∧ (find_first_column accounts USERNAME_ALIASES = none →
        (∀ r ∈ (build_report_dataframe accounts usage askai).rows,
          cellAt REPORT_COLUMNS r "Username" = Value.null)
        ∧ (build_report_dataframe accounts usage askai).rows =
            stableSort (accountLe REPORT_COLUMNS)
              (reportFilled accounts usage askai).rows) := by
  have hb := build_eq accounts usage askai hWF
  have hf := reportFilled_spec accounts usage askai hWF
  refine ⟨?_, ?_, ?_⟩
  · rw [hb, hf]
  · rw [hb]
    exact pairwise_stableSort (usernameAccountLe_total REPORT_COLUMNS)
      (usernameAccountLe_trans REPORT_COLUMNS) _
  · intro hU
    have hnull : ∀ r0, usernameValue accounts r0 = Value.null := by
      intro r0
      unfold usernameValue
      rw [hU]
    constructor
    · intro r hr
      rw [hb] at hr
      rcases List.mem_map.mp (mem_stableSort.mp hr) with ⟨r0, _, rfl⟩
      show usernameValue accounts r0 = Value.null
      exact hnull r0
    · rw [hb, hf]
      show stableSort _ ((survivingRows accounts).map (finalRow accounts usage askai)) =
        stableSort _ ((survivingRows accounts).map (finalRow accounts usage askai))
      apply stableSort_congr
      intro r1 h1 r2 h2
      rcases List.mem_map.mp h1 with ⟨q1, _, rfl⟩
      rcases List.mem_map.mp h2 with ⟨q2, _, rfl⟩
      unfold usernameAccountLe accountLe
      have e1 : cellAt REPORT_COLUMNS (finalRow accounts usage askai q1) "Username" =
          usernameValue accounts q1 := rfl
      have e2 : cellAt REPORT_COLUMNS (finalRow accounts usage askai q2) "Username" =
          usernameValue accounts q2 := rfl
      rw [e1, e2, hnull q1, hnull q2, if_pos rfl]

/-- Witness for C5 at a roster with no username field: the report equals the
Account-only stable sort and evaluates to the expected table. -/
theorem C5_sort_order_witness :
    (build_report_dataframe w5A w2U w2K).rows =
      [[Value.str "a@x.com", Value.null, Value.num 0, Value.num 0, Value.num 1,
        Value.num 0, Value.num 0, Value.num 0, Value.num 0, Value.num 0],
       [Value.str "b@y.com", Value.null, Value.num 0, Value.num 0, Value.num 0,
        Value.num 0, Value.num 0, Value.num 0, Value.num 0, Value.num 0]] := by
  have h := ((C5_sort_order w5A w2U w2K (by decide)).2.2 rfl).2
  rw [h]
  decide

/- ---------- C10: Logins and Uploads are always zero ---------- -/

/-- C10: the Logins and Uploads metrics map to the empty usage-type set, the
aggregator returns the empty result for an empty accepted-type list, and
therefore both columns are 0 in every report row. -/
theorem C10_logins_uploads_zero (accounts usage askai : Frame) (hWF : accounts.WF) :
    (("Logins", ([] : List String)) ∈ METRICS_USAGE_TYPE_MAP)
    ∧ (("Uploads", ([] : List String)) ∈ METRICS_USAGE_TYPE_MAP)
    ∧ (∀ u : Frame, (count_usage_by_account u []).rows = [])
    ∧ (∀ r ∈ (build_report_dataframe accounts usage askai).rows,
        cellAt REPORT_COLUMNS r "Logins" = Value.num 0
        ∧ cellAt REPORT_COLUMNS r "Uploads" = Value.num 0) := by
  have hb := build_eq accounts usage askai hWF
  have hempty : usageAccts usage [] = [] := by
    unfold usageAccts
    rw [if_pos]
    simp
  refine ⟨by decide, by decide, ?_, ?_⟩
  · intro u
    unfold count_usage_by_account
    rw [if_pos]
    simp
  · intro r hr
    rw [hb] at hr
    rcases List.mem_map.mp (mem_stableSort.mp hr) with ⟨r0, _, rfl⟩
    constructor
    · show Value.num ((usageAccts usage []).count (rosterIdentity accounts r0) : Int) =
        Value.num 0
      rw [hempty]
      rfl
    · show Value.num ((usageAccts usage []).count (rosterIdentity accounts r0) : Int) =
        Value.num 0
      rw [hempty]
      rfl

/-- Witness for C10 at concrete inputs with a transcript event: the first
report row still has zero Logins and Uploads. -/
theorem C10_logins_uploads_zero_witness :
    cellAt REPORT_COLUMNS ((build_report_dataframe w2A w2U w2K).rows.getD 0 []) "Logins" =
        Value.num 0
    ∧ cellAt REPORT_COLUMNS ((build_report_dataframe w2A w2U w2K).rows.getD 0 []) "Uploads" =
        Value.num 0 :=
  (C10_logins_uploads_zero w2A w2U w2K (by decide)).2.2.2
    ((build_report_dataframe w2A w2U w2K).rows.getD 0 []) (by decide)
